import Mathlib

/-! Sequential semantics of the `concurrence` containers and task submission.

The development embeds, one source function per definition,

* `queue_x/thread_safe_queue.h`  (two-lock FIFO queue with a dummy node),
* `stack_x/lock_free_stack.h`    (lock-free stack with split reference counts),
* `threadpool/header/executor.h` (`Executor::Submit`),
* `threadpool/src/cancel.cc`     (`StopSource` / `StopToken`),

over an explicit heap: a pointer is an index into a list of cells, `new`
appends a cell, `delete` turns the cell into `none`.  One call runs at a time
(no interleaving), so a mutex is a no-op and a condition-variable wait whose
predicate is false never returns.
-/

/-! ## `thread_safe_queue` -/

/-- How a sequential call can fail to return a result. -/
inductive Stop where
  /-- a null or freed pointer was dereferenced (undefined behaviour) -/
  | null_deref
  /-- the wait on `data_cond` never ends: nobody else can push -/
  | blocks
  deriving DecidableEq, Repr

/-- The nested `struct node`: `std::shared_ptr<T> data; std::unique_ptr<node> next;`.
A null smart pointer is `none`. -/
structure thread_safe_queue.node (T : Type) where
  data : Option T
  next : Option Nat
  deriving DecidableEq, Repr

/-- The data members of `thread_safe_queue<T>` together with the heap its nodes live in.
`head` is the owning `std::unique_ptr<node>`, `tail` the raw `node*`. -/
structure thread_safe_queue (T : Type) where
  heap : List (Option (thread_safe_queue.node T))
  head : Option Nat
  tail : Nat
  deriving DecidableEq, Repr

namespace thread_safe_queue

variable {T : Type}

/-- Pointer dereference `p->`: the cell must be allocated and not freed. -/
def deref (heap : List (Option (node T))) (p : Nat) : Except Stop (node T) :=
  match heap[p]? with
  | some (some n) => .ok n
  | _ => .error .null_deref

/-- The destructor of a `std::unique_ptr<node>`: deletes the node, whose own destructor
destroys its `next` member in turn.  The recursion is bounded by `fuel`. -/
def delete_node : Nat → Option Nat → List (Option (node T)) → List (Option (node T))
  | _, none, heap => heap
  | 0, some _, heap => heap
  | fuel + 1, some p, heap =>
    match heap[p]? with
    | some (some n) => delete_node fuel n.next (heap.set p none)
    | _ => heap

/-- The constructor `thread_safe_queue() : head(new node), tail(head.get())`. -/
def ctor : thread_safe_queue T :=
  { heap := [some { data := none, next := none }], head := some 0, tail := 0 }

/-- The method `push(T new_value)`. -/
def push (q : thread_safe_queue T) (new_value : T) : Except Stop (thread_safe_queue T) :=
  let new_data : Option T := some new_value
  -- std::unique_ptr<node> p(new node);
  let p : Nat := q.heap.length
  let heap1 := q.heap ++ [some { data := none, next := none }]
  -- tail->data = new_data;
  match deref heap1 q.tail with
  | .error e => .error e
  | .ok t =>
    let heap2 := heap1.set q.tail (some { t with data := new_data })
    let new_tail := p
    -- tail->next = std::move(p);
    match deref heap2 q.tail with
    | .error e => .error e
    | .ok t2 =>
      let heap3 := heap2.set q.tail (some { t2 with next := some p })
      -- tail = new_tail;  (data_cond.notify_one() has no sequential effect)
      .ok { heap := heap3, head := q.head, tail := new_tail }

/-- The method `get_tail()`. -/
def get_tail (q : thread_safe_queue T) : Nat := q.tail

/-- The method `pop_head()`: returns the old head pointer; `head` takes over the old
head's `next`, which is left null by the move. -/
def pop_head (q : thread_safe_queue T) : Except Stop (Option Nat × thread_safe_queue T) :=
  -- std::unique_ptr<node> old_head = std::move(head);
  let old_head := q.head
  -- head = std::move(old_head->next);
  match old_head with
  | none => .error .null_deref
  | some o =>
    match deref q.heap o with
    | .error e => .error e
    | .ok n =>
      .ok (old_head, { heap := q.heap.set o (some { n with next := none }),
                       head := n.next, tail := q.tail })

/-- The method `wait_for_data()`: the wait returns once `head.get() != get_tail()`;
with no other thread a false predicate stays false. -/
def wait_for_data (q : thread_safe_queue T) : Except Stop Unit :=
  if q.head ≠ some q.get_tail then .ok () else .error .blocks

/-- The method `wait_pop_head()`. -/
def wait_pop_head (q : thread_safe_queue T) : Except Stop (Option Nat × thread_safe_queue T) :=
  match wait_for_data q with
  | .error e => .error e
  | .ok _ => pop_head q

/-- The method `wait_pop_head(T& value)`; the reference is passed in and handed back. -/
def wait_pop_head_ref (q : thread_safe_queue T) (_value : T) :
    Except Stop (Option Nat × T × thread_safe_queue T) :=
  match wait_for_data q with
  | .error e => .error e
  | .ok _ =>
    -- value = std::move(*head->data);
    match q.head with
    | none => .error .null_deref
    | some h =>
      match deref q.heap h with
      | .error e => .error e
      | .ok n =>
        match n.data with
        | none => .error .null_deref
        | some d =>
          match pop_head q with
          | .error e => .error e
          | .ok (old_head, q1) => .ok (old_head, d, q1)

/-- The method `wait_and_pop()`: returns `old_head->data`, then `old_head` is destroyed. -/
def wait_and_pop (q : thread_safe_queue T) : Except Stop (Option T × thread_safe_queue T) :=
  match wait_pop_head q with
  | .error e => .error e
  | .ok (old_head, q1) =>
    match old_head with
    | none => .error .null_deref
    | some o =>
      match deref q1.heap o with
      | .error e => .error e
      | .ok n =>
        .ok (n.data, { q1 with heap := delete_node q1.heap.length old_head q1.heap })

/-- The method `wait_and_pop(T& value)`. -/
def wait_and_pop_ref (q : thread_safe_queue T) (value : T) :
    Except Stop (T × thread_safe_queue T) :=
  match wait_pop_head_ref q value with
  | .error e => .error e
  | .ok (old_head, v, q1) =>
    .ok (v, { q1 with heap := delete_node q1.heap.length old_head q1.heap })

/-- The method `try_pop_head()`. -/
def try_pop_head (q : thread_safe_queue T) : Except Stop (Option Nat × thread_safe_queue T) :=
  if q.head = some q.get_tail then .ok (none, q) else pop_head q

/-- The method `try_pop_head(T& value)`. -/
def try_pop_head_ref (q : thread_safe_queue T) (value : T) :
    Except Stop (Option Nat × T × thread_safe_queue T) :=
  if q.head = some q.get_tail then .ok (none, value, q)
  else
    -- value = std::move(*head->data);
    match q.head with
    | none => .error .null_deref
    | some h =>
      match deref q.heap h with
      | .error e => .error e
      | .ok n =>
        match n.data with
        | none => .error .null_deref
        | some d =>
          match pop_head q with
          | .error e => .error e
          | .ok (old_head, q1) => .ok (old_head, d, q1)

/-- The method `try_pop()`: `old_head ? old_head->data : std::shared_ptr<T>()`. -/
def try_pop (q : thread_safe_queue T) : Except Stop (Option T × thread_safe_queue T) :=
  match try_pop_head q with
  | .error e => .error e
  | .ok (old_head, q1) =>
    match old_head with
    | none => .ok (none, q1)
    | some o =>
      match deref q1.heap o with
      | .error e => .error e
      | .ok n =>
        .ok (n.data, { q1 with heap := delete_node q1.heap.length old_head q1.heap })

/-- The method `try_pop(T& value)`: returns `old_head != nullptr`. -/
def try_pop_ref (q : thread_safe_queue T) (value : T) :
    Except Stop (Bool × T × thread_safe_queue T) :=
  match try_pop_head_ref q value with
  | .error e => .error e
  | .ok (old_head, v, q1) =>
    .ok (old_head.isSome, v, { q1 with heap := delete_node q1.heap.length old_head q1.heap })

/-- The method `empty()`. -/
def empty (q : thread_safe_queue T) : Bool :=
  decide (q.head = some q.get_tail)

/-- The call `wait_and_pop(value)` as a pop operation: what it writes through the reference. -/
def wait_and_pop_out (value : T) (q : thread_safe_queue T) :
    Except Stop (Option T × thread_safe_queue T) :=
  match wait_and_pop_ref q value with
  | .error e => .error e
  | .ok (v, q1) => .ok (some v, q1)

/-- The call `try_pop(value)` as a pop operation: what it writes through the reference when
it returns true, nothing when it returns false. -/
def try_pop_out (value : T) (q : thread_safe_queue T) :
    Except Stop (Option T × thread_safe_queue T) :=
  match try_pop_ref q value with
  | .error e => .error e
  | .ok (true, v, q1) => .ok (some v, q1)
  | .ok (false, _, q1) => .ok (none, q1)

/-- Pushing the elements of a list one call after another. -/
def push_all : List T → thread_safe_queue T → Except Stop (thread_safe_queue T)
  | [], q => .ok q
  | x :: xs, q =>
    match push q x with
    | .error e => .error e
    | .ok q1 => push_all xs q1

/-- Calling a pop operation `n` times, one call after another, collecting what it returns. -/
def pop_times (pop : thread_safe_queue T → Except Stop (Option T × thread_safe_queue T)) :
    Nat → thread_safe_queue T → Except Stop (List (Option T) × thread_safe_queue T)
  | 0, q => .ok ([], q)
  | n + 1, q =>
    match pop q with
    | .error e => .error e
    | .ok (r, q1) =>
      match pop_times pop n q1 with
      | .error e => .error e
      | .ok (rs, q2) => .ok (r :: rs, q2)

end thread_safe_queue

/-! ## `lock_free_stack` -/

/-- The C++ type `int`: 32-bit two's complement.  Arithmetic results are reduced to the
representable range. -/
def int32 (z : Int) : Int := (z + 2147483648) % 4294967296 - 2147483648

/-- The struct `counted_node_ptr<T>`: `int external_count; node<T>* ptr;`. -/
structure counted_node_ptr where
  external_count : Int
  ptr : Option Nat
  deriving DecidableEq, Repr

/-- The struct `node<T>` of the stack:
`std::shared_ptr<T> data; std::atomic<int> internal_count; counted_node_ptr<T> next;`. -/
structure node (T : Type) where
  data : Option T
  internal_count : Int
  next : counted_node_ptr
  deriving DecidableEq, Repr

/-- The data member `std::atomic<counted_node_ptr<T>> head` of `lock_free_stack<T>` together
with the heap its nodes live in. -/
structure lock_free_stack (T : Type) where
  heap : List (Option (node T))
  head : counted_node_ptr
  deriving DecidableEq, Repr

/-- How a sequential stack call can fail to return a result. -/
inductive StackStop where
  /-- a null or freed pointer was dereferenced (undefined behaviour) -/
  | null_deref
  /-- a retry loop used up its iteration budget -/
  | out_of_fuel
  deriving DecidableEq, Repr

namespace lock_free_stack

variable {T : Type}

/-- A value-initialised stack object (as the global `my_stack` of `main.cpp`):
external count 0, null pointer, no node allocated. -/
def ctor : lock_free_stack T :=
  { heap := [], head := { external_count := 0, ptr := none } }

/-- Pointer dereference `p->`. -/
def deref (heap : List (Option (node T))) (p : Nat) : Except StackStop (node T) :=
  match heap[p]? with
  | some (some n) => .ok n
  | _ => .error .null_deref

/-- The call `head.compare_exchange_strong(expected, desired)`: returns the success flag,
the updated `expected` and the stack. -/
def compare_exchange_strong (s : lock_free_stack T) (expected desired : counted_node_ptr) :
    Bool × counted_node_ptr × lock_free_stack T :=
  if s.head = expected then (true, expected, { s with head := desired })
  else (false, s.head, s)

/-- The method `increase_head_count(counted_node_ptr<T>& old_counter)`; each unit of `fuel`
pays for one iteration of the `do ... while` loop. -/
def increase_head_count :
    Nat → lock_free_stack T → counted_node_ptr → Except StackStop (counted_node_ptr × lock_free_stack T)
  | 0, _, _ => .error .out_of_fuel
  | fuel + 1, s, old_counter =>
    -- new_counter = old_counter; ++new_counter.external_count;
    let new_counter : counted_node_ptr :=
      { old_counter with external_count := int32 (old_counter.external_count + 1) }
    match compare_exchange_strong s old_counter new_counter with
    | (true, old_counter1, s1) =>
      -- old_counter.external_count = new_counter.external_count;
      .ok ({ old_counter1 with external_count := new_counter.external_count }, s1)
    | (false, old_counter1, s1) => increase_head_count fuel s1 old_counter1

/-- The retry loop of `push`:
`while (!head.compare_exchange_strong(new_node.ptr->next, new_node, ...));`. -/
def push_loop : Nat → lock_free_stack T → Nat → counted_node_ptr → Except StackStop (lock_free_stack T)
  | 0, _, _, _ => .error .out_of_fuel
  | fuel + 1, s, p, new_node =>
    match deref s.heap p with
    | .error e => .error e
    | .ok n =>
      match compare_exchange_strong s n.next new_node with
      | (true, _, s1) => .ok s1
      | (false, expected, s1) =>
        push_loop fuel { s1 with heap := s1.heap.set p (some { n with next := expected }) } p new_node

/-- The method `push(const T& data)`. -/
def push (fuel : Nat) (s : lock_free_stack T) (data : T) : Except StackStop (lock_free_stack T) :=
  -- new_node.ptr = new node<T>(data); new_node.external_count = 1;
  -- new_node.ptr->next = head.load(std::memory_order_relaxed);
  let p : Nat := s.heap.length
  let new_node : counted_node_ptr := { external_count := 1, ptr := some p }
  let s1 : lock_free_stack T :=
    { s with heap := s.heap ++ [some { data := some data, internal_count := 0, next := s.head }] }
  push_loop fuel s1 p new_node

/-- The body of the `for (;;)` loop of `pop`, iterated at most `fuel` times. -/
def pop_loop : Nat → lock_free_stack T → counted_node_ptr → Except StackStop (Option T × lock_free_stack T)
  | 0, _, _ => .error .out_of_fuel
  | fuel + 1, s, old_head =>
    -- increase_head_count(old_head);
    match increase_head_count (fuel + 1) s old_head with
    | .error e => .error e
    | .ok (old_head1, s1) =>
      -- node<T>* const ptr = old_head.ptr;
      match old_head1.ptr with
      | none => .ok (none, s1)
      | some ptr =>
        match deref s1.heap ptr with
        | .error e => .error e
        | .ok n =>
          match compare_exchange_strong s1 old_head1 n.next with
          | (true, old_head2, s2) =>
            -- res.swap(ptr->data);
            let res := n.data
            let n1 : node T := { n with data := none }
            let count_increase := int32 (old_head2.external_count - 2)
            -- ptr->internal_count.fetch_add(count_increase) == -count_increase
            let previous := n1.internal_count
            let n2 : node T := { n1 with internal_count := int32 (previous + count_increase) }
            if previous = int32 (-count_increase) then
              -- delete ptr;
              .ok (res, { s2 with heap := s2.heap.set ptr none })
            else
              .ok (res, { s2 with heap := s2.heap.set ptr (some n2) })
          | (false, old_head2, s2) =>
            -- ptr->internal_count.fetch_add(-1) == 1
            let previous := n.internal_count
            let n1 : node T := { n with internal_count := int32 (previous - 1) }
            if previous = 1 then
              -- delete ptr;
              pop_loop fuel { s2 with heap := s2.heap.set ptr none } old_head2
            else
              pop_loop fuel { s2 with heap := s2.heap.set ptr (some n1) } old_head2

/-- The method `pop()`. -/
def pop (fuel : Nat) (s : lock_free_stack T) : Except StackStop (Option T × lock_free_stack T) :=
  -- counted_node_ptr<T> old_head = head.load(std::memory_order_relaxed);
  pop_loop fuel s s.head

/-- Pushing the elements of a list one call after another. -/
def push_all (fuel : Nat) : List T → lock_free_stack T → Except StackStop (lock_free_stack T)
  | [], s => .ok s
  | x :: xs, s =>
    match push fuel s x with
    | .error e => .error e
    | .ok s1 => push_all fuel xs s1

/-- Calling `pop` `n` times, one call after another, collecting what it returns. -/
def pop_times (fuel : Nat) :
    Nat → lock_free_stack T → Except StackStop (List (Option T) × lock_free_stack T)
  | 0, s => .ok ([], s)
  | n + 1, s =>
    match pop fuel s with
    | .error e => .error e
    | .ok (r, s1) =>
      match pop_times fuel n s1 with
      | .error e => .error e
      | .ok (rs, s2) => .ok (r :: rs, s2)

end lock_free_stack

/-! ## `arrow::Status`, `StopSource`, `StopToken` -/

namespace arrow

/-- Modelled from the spec: the header `status.h` is not among the sources.  Section 7 of the
spec lists the error kinds OK, Invalid, Cancelled and Shutdown. -/
inductive StatusCode where
  | OK
  | Invalid
  | Cancelled
  | Shutdown
  deriving DecidableEq, Repr

/-- Modelled from the spec: the header `status.h` is not among the sources.  A status is an
error kind that "carries a human-readable detail". -/
structure Status where
  code : StatusCode
  detail : String
  deriving DecidableEq, Repr

namespace Status

/-- Modelled from the spec: `Status::OK()` of the missing `status.h`, also the value of a
default-constructed `Status`. -/
def OK : Status := { code := .OK, detail := "" }

/-- Modelled from the spec: `Status::Cancelled(msg)` of the missing `status.h`. -/
def Cancelled (msg : String) : Status := { code := .Cancelled, detail := msg }

/-- Modelled from the spec: `Status::ok()` of the missing `status.h`, true exactly for the
kind OK. -/
def ok (st : Status) : Bool := decide (st.code = .OK)

end Status

/-- The struct `StopSourceImpl`: `std::atomic<int> requested_{0}; std::mutex mutex_;
Status cancel_error_;`.  The flag is only stored and loaded, never computed with, so an
unbounded integer stands for the `int`; the mutex has no sequential content. -/
structure StopSourceImpl where
  requested_ : Int
  cancel_error_ : Status
  deriving DecidableEq, Repr

/-- How a call on a stop source or token can fail to return. -/
inductive Halt where
  /-- a `DCHECK_*` macro of `macros.h` called `std::abort()` -/
  | abort
  /-- the handle points at no stop state of the heap -/
  | bad_pointer
  deriving DecidableEq, Repr

/-- The stop states allocated so far; a `std::shared_ptr<StopSourceImpl>` is an index. -/
abbrev StopHeap := List StopSourceImpl

/-- The class `StopSource`: `std::shared_ptr<StopSourceImpl> impl_`, never null. -/
structure StopSource where
  impl_ : Nat
  deriving DecidableEq, Repr

/-- The class `StopToken`: `std::shared_ptr<StopSourceImpl> impl_`, null for a
default-constructed token. -/
structure StopToken where
  impl_ : Option Nat
  deriving DecidableEq, Repr

namespace StopSourceImpl

/-- The body of `StopSource::RequestStop(Status st)` as a transition of `*impl_`. -/
def RequestStop (impl : StopSourceImpl) (st : Status) : Except Halt StopSourceImpl :=
  -- DCHECK_NOT_OK(st);
  if st.ok then .error .abort
  -- if ( !impl_->requested_ )
  else if impl.requested_ = 0 then
    .ok { requested_ := -1, cancel_error_ := st }
  else .ok impl

/-- The body of `StopSource::RequestStopFromSignal(int signum)` as a transition of `*impl_`. -/
def RequestStopFromSignal (impl : StopSourceImpl) (signum : Int) : StopSourceImpl :=
  { impl with requested_ := signum }

/-- The body of `StopSource::Reset()` as a transition of `*impl_`. -/
def Reset (_impl : StopSourceImpl) : StopSourceImpl :=
  { cancel_error_ := Status.OK, requested_ := 0 }

/-- The body of `StopToken::IsStopRequested()` for a non-null `impl_`. -/
def IsStopRequested (impl : StopSourceImpl) : Bool :=
  decide (impl.requested_ ≠ 0)

/-- The body of `StopToken::Poll()` for a non-null `impl_`: the status returned and the
stop state left behind. -/
def Poll (impl : StopSourceImpl) : Except Halt (Status × StopSourceImpl) :=
  -- if ( !impl_->requested_.load() ) return Status::OK();
  if impl.requested_ = 0 then .ok (Status.OK, impl)
  else if impl.cancel_error_.ok then
    let signum := impl.requested_
    -- DCHECK_GE(signum, 0);
    if ¬ (signum ≥ 0) then .error .abort
    else
      let impl1 : StopSourceImpl :=
        { impl with cancel_error_ := Status.Cancelled "Operation cancelled" }
      .ok (impl1.cancel_error_, impl1)
  else .ok (impl.cancel_error_, impl)

end StopSourceImpl

namespace StopSource

/-- The constructor `StopSource() : impl_(new StopSourceImpl)`. -/
def ctor (mem : StopHeap) : StopSource × StopHeap :=
  ({ impl_ := mem.length }, mem ++ [{ requested_ := 0, cancel_error_ := Status.OK }])

/-- The method `StopSource::RequestStop(Status st)`. -/
def RequestStop (self : StopSource) (st : Status) (mem : StopHeap) : Except Halt StopHeap :=
  match mem[self.impl_]? with
  | none => .error .bad_pointer
  | some impl =>
    match impl.RequestStop st with
    | .error e => .error e
    | .ok impl1 => .ok (mem.set self.impl_ impl1)

/-- The method `StopSource::RequestStop()`. -/
def RequestStop0 (self : StopSource) (mem : StopHeap) : Except Halt StopHeap :=
  self.RequestStop (Status.Cancelled "Operation cancelled") mem

/-- The method `StopSource::RequestStopFromSignal(int signum)`. -/
def RequestStopFromSignal (self : StopSource) (signum : Int) (mem : StopHeap) :
    Except Halt StopHeap :=
  match mem[self.impl_]? with
  | none => .error .bad_pointer
  | some impl => .ok (mem.set self.impl_ (impl.RequestStopFromSignal signum))

/-- The method `StopSource::Reset()`. -/
def Reset (self : StopSource) (mem : StopHeap) : Except Halt StopHeap :=
  match mem[self.impl_]? with
  | none => .error .bad_pointer
  | some impl => .ok (mem.set self.impl_ impl.Reset)

/-- The method `StopSource::token()`. -/
def token (self : StopSource) : StopToken := { impl_ := some self.impl_ }

end StopSource

namespace StopToken

/-- The static method `StopToken::Unstoppable()`. -/
def Unstoppable : StopToken := { impl_ := none }

/-- The method `StopToken::IsStopRequested()`. -/
def IsStopRequested (self : StopToken) (mem : StopHeap) : Except Halt Bool :=
  match self.impl_ with
  | none => .ok false
  | some p =>
    match mem[p]? with
    | none => .error .bad_pointer
    | some impl => .ok impl.IsStopRequested

/-- The method `StopToken::Poll()`. -/
def Poll (self : StopToken) (mem : StopHeap) : Except Halt (Status × StopHeap) :=
  match self.impl_ with
  | none => .ok (Status.OK, mem)
  | some p =>
    match mem[p]? with
    | none => .error .bad_pointer
    | some impl =>
      match impl.Poll with
      | .error e => .error e
      | .ok (st, impl1) => .ok (st, mem.set p impl1)

end StopToken

/-- One call on a stop state: the operations that `RequestStop`, `RequestStopFromSignal`,
`Reset`, `Poll` and `IsStopRequested` perform on `*impl_`. -/
inductive StopCall where
  | RequestStop (st : Status)
  | RequestStopFromSignal (signum : Int)
  | Reset
  | Poll
  | IsStopRequested
  deriving DecidableEq, Repr

/-- The stop state after one call, or the reason the call did not return. -/
def StopCall.apply (impl : StopSourceImpl) : StopCall → Except Halt StopSourceImpl
  | .RequestStop st => impl.RequestStop st
  | .RequestStopFromSignal signum => .ok (impl.RequestStopFromSignal signum)
  | .Reset => .ok impl.Reset
  | .Poll =>
    match impl.Poll with
    | .error e => .error e
    | .ok (_, impl1) => .ok impl1
  | .IsStopRequested => .ok impl

/-- The stop states a sequence of calls goes through, the starting state first; the list
ends where a call does not return. -/
def StopCall.states (impl : StopSourceImpl) : List StopCall → List StopSourceImpl
  | [] => [impl]
  | c :: cs =>
    match c.apply impl with
    | .error _ => [impl]
    | .ok impl1 => impl :: StopCall.states impl1 cs

/-- Whether every call of a sequence returns. -/
def StopCall.returns (impl : StopSourceImpl) : List StopCall → Bool
  | [] => true
  | c :: cs =>
    match c.apply impl with
    | .error _ => false
    | .ok impl1 => StopCall.returns impl1 cs

end arrow

/-! ## `std::promise` / `std::future`, `FnOnce`, `Executor::Submit` -/

namespace std

/-- What a call can throw: the two `std::future_error` conditions a promise raises,
`std::runtime_error(what)`, and whatever user code throws (`E`). -/
inductive Exception (E : Type) where
  | broken_promise
  | promise_already_satisfied
  | runtime_error (what : String)
  | thrown (e : E)
  deriving DecidableEq, Repr

/-- The shared state of a `std::promise<R>` and its `std::future<R>`: not ready, or ready
with a value, or ready with an exception. -/
inductive SharedState (R E : Type) where
  | not_ready
  | value (r : R)
  | exception (e : Exception E)
  deriving DecidableEq, Repr

/-- The handle `std::future<R>`; `promise.get_future()` returns a valid one. -/
structure future where
  valid : Bool
  deriving DecidableEq, Repr

variable {R E : Type}

/-- The call `promise.set_value(r)`: stores the value, or throws when the state is ready. -/
def promise.set_value (state : SharedState R E) (r : R) : Except (Exception E) (SharedState R E) :=
  match state with
  | .not_ready => .ok (.value r)
  | _ => .error .promise_already_satisfied

/-- The call `promise.set_exception(p)`: stores the exception, or throws when the state is
ready. -/
def promise.set_exception (state : SharedState R E) (p : Exception E) :
    Except (Exception E) (SharedState R E) :=
  match state with
  | .not_ready => .ok (.exception p)
  | _ => .error .promise_already_satisfied

/-- The destructor of a promise that owns the state: a state that is not ready is made ready
with `std::future_error(broken_promise)`. -/
def promise.dtor (state : SharedState R E) : SharedState R E :=
  match state with
  | .not_ready => .exception .broken_promise
  | st => st

/-- The call `future.get()`: `none` while the state is not ready (the caller blocks),
otherwise the value returned or the exception rethrown. -/
def future.get (state : SharedState R E) : Option (Except (Exception E) R) :=
  match state with
  | .not_ready => none
  | .value r => some (.ok r)
  | .exception e => some (.error e)

end std

namespace arrow

open std

/-- The struct `TaskHints` with its default member initialisers. -/
structure TaskHints where
  priority : Int := 0
  io_size : Int := -1
  cpu_cost : Int := -1
  external_id : Int := -1
  deriving DecidableEq, Repr

namespace internal

/-- The struct `FnOnce<R(A...)>::Impl` holding a callable: its virtual `invoke` and its
virtual destructor, both acting on the program state `W`; `X` is what a call may throw. -/
structure FnOnce.Impl (W A R X : Type) where
  invoke : A → W → Except X R × W
  dtor : W → W

/-- The class `FnOnce<R(A...)>`: `std::unique_ptr<Impl> impl_`. -/
structure FnOnce (W A R X : Type) where
  impl_ : Option (FnOnce.Impl W A R X)

namespace FnOnce

variable {W A R X : Type}

/-- The default constructor `FnOnce() = default`. -/
def ctor : FnOnce W A R X := { impl_ := none }

/-- The converting constructor `FnOnce(Fn fn) : impl_(new FnImpl<Fn>(std::move(fn)))`. -/
def of (fn : FnOnce.Impl W A R X) : FnOnce W A R X := { impl_ := some fn }

/-- The conversion `explicit operator bool()`. -/
def toBool (self : FnOnce W A R X) : Bool := self.impl_.isSome

/-- The call operator `R operator()(A... a) &&`: `auto bye = std::move(impl_); return
bye->invoke(...)`, after which `bye` is destroyed.  Gives `none` for a null `impl_`
(a null dereference), else the result, the emptied `FnOnce` and the program state. -/
def call (self : FnOnce W A R X) (a : A) (w : W) : Option (Except X R × FnOnce W A R X × W) :=
  match self.impl_ with
  | none => none
  | some bye =>
    let r := bye.invoke a w
    some (r.1, { impl_ := none }, bye.dtor r.2)

/-- The destructor of a `FnOnce`: destroys the callable it still holds, if any. -/
def dtor (self : FnOnce W A R X) (w : W) : W :=
  match self.impl_ with
  | none => w
  | some held => held.dtor w

end FnOnce

end internal

open internal

variable {S A R E : Type}

/-- The type `Executor::StopCallback = internal::FnOnce<void(const Status&)>`. -/
abbrev StopCallback (W E : Type) := FnOnce W Status Unit (Exception E)

/-- The class `Executor`: its one pure virtual method `SpawnReal`.  The program state seen
by one `Submit` call is the executor's own state `S` paired with the shared state of the
promise that `Submit` creates. -/
structure Executor (S R E : Type) where
  SpawnReal : TaskHints → FnOnce (S × SharedState R E) Unit Unit (Exception E) → StopToken →
    StopCallback (S × SharedState R E) E → S × SharedState R E → Status × (S × SharedState R E)

/-- The body of the lambda that `Submit` builds, acting on the captured promise.  The
flag is `std::is_void_v<ReturnType>`, `func` returns a value or throws. -/
def Submit.lambda (is_void_v : Bool) (func : A → Except E R) (tup : A)
    (promise : SharedState R E) : Except (Exception E) Unit × SharedState R E :=
  -- try { ... }
  let attempt : Except (Exception E) (SharedState R E) :=
    if !is_void_v then
      -- ReturnType result = std::apply(std::move(func), std::move(tup));
      match func tup with
      | .error e => .error (.thrown e)
      | .ok result => std.promise.set_value promise result
    else
      -- std::apply(std::move(func), std::move(tup));
      match func tup with
      | .error e => .error (.thrown e)
      | .ok _ => .ok promise
  match attempt with
  | .ok promise1 => (.ok (), promise1)
  | .error e =>
    -- catch(...) { promise.set_exception(std::current_exception()); }
    match std.promise.set_exception promise e with
    | .ok promise1 => (.ok (), promise1)
    | .error e1 => (.error e1, promise)

/-- The closure object `task` of `Submit`: calling it runs the lambda body on the captured
promise, destroying it destroys the captured promise. -/
def Submit.task (is_void_v : Bool) (func : A → Except E R) (tup : A) :
    FnOnce.Impl (S × SharedState R E) Unit Unit (Exception E) :=
  { invoke := fun _ w =>
      let r := Submit.lambda is_void_v func tup w.2
      (r.1, (w.1, r.2))
    dtor := fun w => (w.1, std.promise.dtor w.2) }

/-- The method `Executor::Submit(hints, stop_token, stop_callback, func, args...)`: the
future returned or the exception raised, with the program state left behind. -/
def Executor.Submit (self : Executor S R E) (is_void_v : Bool) (hints : TaskHints)
    (stop_token : StopToken) (stop_callback : StopCallback (S × SharedState R E) E)
    (func : A → Except E R) (args : A) (s : S) :
    Except (Exception E) future × (S × SharedState R E) :=
  -- std::promise<ReturnType> promise; std::future<ReturnType> future = promise.get_future();
  let promise : SharedState R E := .not_ready
  let future : future := { valid := true }
  let task := FnOnce.of (Submit.task is_void_v func args)
  let r := self.SpawnReal hints task stop_token stop_callback (s, promise)
  let status := r.1
  if !status.ok then (.error (.runtime_error "Failed to submit task"), r.2)
  else (.ok future, r.2)

/-- The overload `Executor::Submit(func, args...)`. -/
def Executor.Submit_func (self : Executor S R E) (is_void_v : Bool)
    (func : A → Except E R) (args : A) (s : S) :
    Except (Exception E) future × (S × SharedState R E) :=
  self.Submit is_void_v {} StopToken.Unstoppable FnOnce.ctor func args s

/-- The overload `Executor::Submit(stop_token, func, args...)`. -/
def Executor.Submit_token (self : Executor S R E) (is_void_v : Bool) (stop_token : StopToken)
    (func : A → Except E R) (args : A) (s : S) :
    Except (Exception E) future × (S × SharedState R E) :=
  self.Submit is_void_v {} stop_token FnOnce.ctor func args s

end arrow

/-! ## Sequences of calls on the containers -/

namespace thread_safe_queue

variable {T : Type}

/-- One call on a queue: `push`, or one of the four pop operations. -/
inductive Call (T : Type) where
  | push (new_value : T)
  | try_pop
  | try_pop_ref (value : T)
  | wait_and_pop
  | wait_and_pop_ref (value : T)
  deriving DecidableEq, Repr

/-- The value a call delivers (nothing for `push` and for a pop that finds the queue empty)
and the queue it leaves, or the reason the call does not return. -/
def Call.apply (q : thread_safe_queue T) : Call T → Except Stop (Option T × thread_safe_queue T)
  | .push new_value =>
    match q.push new_value with
    | .error e => .error e
    | .ok q1 => .ok (none, q1)
  | .try_pop => q.try_pop
  | .try_pop_ref value => try_pop_out value q
  | .wait_and_pop => q.wait_and_pop
  | .wait_and_pop_ref value => wait_and_pop_out value q

/-- The calls of a list made one after another: the values delivered by the pops, in the
order of delivery, and the queue reached. -/
def Call.run : List (Call T) → thread_safe_queue T → Except Stop (List T × thread_safe_queue T)
  | [], q => .ok ([], q)
  | c :: cs, q =>
    match c.apply q with
    | .error e => .error e
    | .ok (r, q1) =>
      match Call.run cs q1 with
      | .error e => .error e
      | .ok (rs, q2) => .ok (r.toList ++ rs, q2)

/-- The values pushed by a list of calls, in push order. -/
def Call.pushed : List (Call T) → List T
  | [] => []
  | .push v :: cs => v :: Call.pushed cs
  | _ :: cs => Call.pushed cs

/-- Whether a call is a `push` or a `try_pop()`. -/
def Call.push_or_try_pop : Call T → Bool
  | .push _ => true
  | .try_pop => true
  | _ => false

end thread_safe_queue

namespace lock_free_stack

variable {T : Type}

/-- One call on a stack: `push` or `pop`. -/
inductive Call (T : Type) where
  | push (data : T)
  | pop
  deriving DecidableEq, Repr

/-- The value a call delivers (nothing for `push` and for a `pop` that returns a null
pointer) and the stack it leaves, or the reason the call does not return. -/
def Call.apply (fuel : Nat) (s : lock_free_stack T) :
    Call T → Except StackStop (Option T × lock_free_stack T)
  | .push data =>
    match s.push fuel data with
    | .error e => .error e
    | .ok s1 => .ok (none, s1)
  | .pop => s.pop fuel

/-- The calls of a list made one after another: the values delivered by the pops, in the
order of delivery, and the stack reached. -/
def Call.run (fuel : Nat) :
    List (Call T) → lock_free_stack T → Except StackStop (List T × lock_free_stack T)
  | [], s => .ok ([], s)
  | c :: cs, s =>
    match c.apply fuel s with
    | .error e => .error e
    | .ok (r, s1) =>
      match Call.run fuel cs s1 with
      | .error e => .error e
      | .ok (rs, s2) => .ok (r.toList ++ rs, s2)

/-- The values pushed by a list of calls, in push order. -/
def Call.pushed : List (Call T) → List T
  | [] => []
  | .push v :: cs => v :: Call.pushed cs
  | .pop :: cs => Call.pushed cs

/-- The values on the stack, top first: the data of the nodes met when following `next`
from the counted pointer `cp`, for at most `fuel` nodes. -/
def values : Nat → List (Option (node T)) → counted_node_ptr → List T
  | 0, _, _ => []
  | fuel + 1, heap, cp =>
    match cp.ptr with
    | none => []
    | some p =>
      match heap[p]? with
      | some (some n) => n.data.toList ++ values fuel heap n.next
      | _ => []

/-- The values a stack still holds, top first. -/
def contents (s : lock_free_stack T) : List T := values s.heap.length s.heap s.head

/-- The number of nodes allocated and not deleted. -/
def live_nodes : List (Option (node T)) → Nat
  | [] => 0
  | none :: heap => live_nodes heap
  | some _ :: heap => live_nodes heap + 1

/-- The destructor `~lock_free_stack()`: `while (pop());`, each unit of `fuel` paying for
one call of `pop`. -/
def dtor : Nat → lock_free_stack T → Except StackStop (lock_free_stack T)
  | 0, _ => .error .out_of_fuel
  | fuel + 1, s =>
    match s.pop (fuel + 1) with
    | .error e => .error e
    | .ok (some _, s1) => dtor fuel s1
    | .ok (none, s1) => .ok s1

end lock_free_stack

/-! ## Admissible stop calls, `Executor::Spawn`, the thread pool -/

namespace arrow

open std internal

/-- Whether a call respects the data model: `RequestStop` is given a failure, and
`RequestStopFromSignal` a positive signal number. -/
def StopCall.admissible : StopCall → Bool
  | .RequestStop st => !st.ok
  | .RequestStopFromSignal signum => decide (0 < signum)
  | _ => true

variable {S R E F CB : Type}

/-- The overload `Executor::Spawn(hints, func, stop_token, stop_callback)`. -/
def Executor.Spawn (self : Executor S R E) (hints : TaskHints)
    (func : FnOnce (S × SharedState R E) Unit Unit (Exception E)) (stop_token : StopToken)
    (stop_callback : StopCallback (S × SharedState R E) E) (w : S × SharedState R E) :
    Status × (S × SharedState R E) :=
  self.SpawnReal hints func stop_token stop_callback w

/-- The overload `Executor::Spawn(func)`. -/
def Executor.Spawn_func (self : Executor S R E)
    (func : FnOnce (S × SharedState R E) Unit Unit (Exception E)) (w : S × SharedState R E) :
    Status × (S × SharedState R E) :=
  self.SpawnReal {} func StopToken.Unstoppable FnOnce.ctor w

namespace ThreadPool

/-- Modelled from the spec: the file `thread_pool.cc` is not among the sources.  The Task
record of section 3: the work closure, the stop token and the stop callback, with the hints
of the submission. -/
structure Task (F CB : Type) where
  hints : TaskHints
  callable : F
  stop_token : StopToken
  stop_callback : CB

/-- Modelled from the spec: `ThreadPool::State` is only declared in `thread_pool.h`.  The
Pool State of section 3 for one process, without the mutex and the condition variables;
worker handles are counted. -/
structure State (F CB : Type) where
  desired_capacity : Int
  pending_tasks : List (Task F CB)
  workers : Nat
  finished_workers : Nat
  please_shutdown : Bool
  quick_shutdown : Bool
  tasks_running : Nat

/-- Modelled from the spec: the Shutdown status of section 7, "submission after shutdown
began"; the file `thread_pool.cc` that builds it is not among the sources. -/
def ShutdownStatus : Status := { code := .Shutdown, detail := "submission after shutdown began" }

/-- Modelled from the spec: `ThreadPool::SpawnReal`, whose file `thread_pool.cc` is not
among the sources.  Section 4.3.2: it "enqueues a task" and "returns a status reporting
whether enqueue succeeded (fails if the pool is shutting down)"; section 3: "once
[please_shutdown is] true, submissions are rejected". -/
def SpawnReal (self : State F CB) (hints : TaskHints) (task : F) (stop_token : StopToken)
    (stop_callback : CB) : Status × State F CB :=
  if self.please_shutdown then (ShutdownStatus, self)
  else
    (Status.OK,
      { self with
        pending_tasks := self.pending_tasks ++
          [{ hints := hints, callable := task, stop_token := stop_token,
             stop_callback := stop_callback }] })

/-- Modelled from the spec: `ThreadPool::Shutdown(wait)`, whose file `thread_pool.cc` is not
among the sources.  Section 4.3.6: it "sets please_shutdown; if wait = false also sets
quick_shutdown", "waits for every worker to exit and reaps their handles"; the queue is
drained (`wait`) or its tasks are dropped; "calling Shutdown a second time is a no-op
returning success". -/
def Shutdown (self : State F CB) (wait : Bool) : Status × State F CB :=
  if self.please_shutdown then (Status.OK, self)
  else
    (Status.OK,
      { self with
        please_shutdown := true
        quick_shutdown := !wait
        pending_tasks := []
        workers := 0
        finished_workers := 0
        tasks_running := 0 })

/-- One later operation on a pool: a submission or another shutdown. -/
inductive Call (F CB : Type) where
  | SpawnReal (hints : TaskHints) (task : F) (stop_token : StopToken) (stop_callback : CB)
  | Shutdown (wait : Bool)

/-- The pool state after one operation. -/
def Call.apply (self : State F CB) : Call F CB → State F CB
  | .SpawnReal hints task stop_token stop_callback =>
    (ThreadPool.SpawnReal self hints task stop_token stop_callback).2
  | .Shutdown wait => (ThreadPool.Shutdown self wait).2

/-- The pool state after a list of operations made one after another. -/
def Call.after : List (Call F CB) → State F CB → State F CB
  | [], self => self
  | c :: cs, self => Call.after cs (c.apply self)

/-- The class `ThreadPool` as an `Executor`: its `SpawnReal` override acts on the pool
state; `erase` and `erase_cb` stand for the move of the type-erased task and callback into
the task record. -/
def executor
    (erase : FnOnce (State F CB × SharedState R E) Unit Unit (Exception E) → F)
    (erase_cb : StopCallback (State F CB × SharedState R E) E → CB) :
    Executor (State F CB) R E where
  SpawnReal := fun hints task stop_token stop_callback w =>
    let r := ThreadPool.SpawnReal w.1 hints (erase task) stop_token (erase_cb stop_callback)
    (r.1, (r.2, w.2))

end ThreadPool

end arrow

/-! ## Reclamation steps of the stack, well-formed queue lists -/

namespace lock_free_stack

variable {T : Type}

/-- The call `internal_count.fetch_add(arg)`: the previous value, which the call returns,
and the value stored. -/
def fetch_add (internal_count arg : Int) : Int × Int :=
  (internal_count, int32 (internal_count + arg))

/-- The two operations `pop` performs on the internal counter of a node: the one of the
thread whose head swing succeeded and the one of a thread whose head swing failed. -/
inductive Release where
  | winner
  | loser
  deriving DecidableEq, Repr

/-- One operation on the internal counter: whether its delete condition holds, and the new
counter.  Winner: `count_increase = old_head.external_count - 2;
internal_count.fetch_add(count_increase) == -count_increase`.
Loser: `internal_count.fetch_add(-1) == 1`. -/
def Release.apply (external_count internal_count : Int) : Release → Bool × Int
  | .winner =>
    let count_increase := int32 (external_count - 2)
    let r := fetch_add internal_count count_increase
    (decide (r.1 = int32 (-count_increase)), r.2)
  | .loser =>
    let r := fetch_add internal_count (-1)
    (decide (r.1 = 1), r.2)

/-- The operations of a list applied in order to the internal counter of one node: the
delete decisions, in order, and the final counter. -/
def Release.run (external_count : Int) : Int → List Release → List Bool × Int
  | internal_count, [] => ([], internal_count)
  | internal_count, op :: ops =>
    let r := op.apply external_count internal_count
    let rest := Release.run external_count r.2 ops
    (r.1 :: rest.1, rest.2)

/-- How one pass through the `for (;;)` body of `pop` ends: with the value returned, or
with another iteration for the updated `old_head`. -/
inductive Attempt (T : Type) where
  | returned (res : Option T) (s : lock_free_stack T)
  | again (old_head : counted_node_ptr) (s : lock_free_stack T)

/-- The body of the `for (;;)` loop of `pop` after `increase_head_count(old_head)`, for a
thread holding `old_head` while the stack is in state `s` (which other threads may have
changed since the count was raised). -/
def pop_attempt (s : lock_free_stack T) (old_head : counted_node_ptr) :
    Except StackStop (Attempt T) :=
  -- node<T>* const ptr = old_head.ptr;
  match old_head.ptr with
  | none => .ok (.returned none s)
  | some ptr =>
    match deref s.heap ptr with
    | .error e => .error e
    | .ok n =>
      match compare_exchange_strong s old_head n.next with
      | (true, old_head2, s2) =>
        -- res.swap(ptr->data);
        let res := n.data
        let n1 : node T := { n with data := none }
        let r := Release.apply old_head2.external_count n1.internal_count .winner
        if r.1 then
          -- delete ptr;
          .ok (.returned res { s2 with heap := s2.heap.set ptr none })
        else
          .ok (.returned res
            { s2 with heap := s2.heap.set ptr (some { n1 with internal_count := r.2 }) })
      | (false, old_head2, s2) =>
        let r := Release.apply old_head2.external_count n.internal_count .loser
        if r.1 then
          -- delete ptr;
          .ok (.again old_head2 { s2 with heap := s2.heap.set ptr none })
        else
          .ok (.again old_head2
            { s2 with heap := s2.heap.set ptr (some { n with internal_count := r.2 }) })

end lock_free_stack

namespace thread_safe_queue

variable {T : Type}

/-- Following `next` from the pointer `p` for at most `fuel` nodes: whether the walk arrives
at the node `t`, that node has null `data` and null `next`, and every node met before it has
non-null `data` and non-null `next`. -/
def reaches_tail : Nat → List (Option (node T)) → Nat → Option Nat → Bool
  | 0, _, _, _ => false
  | _ + 1, _, _, none => false
  | fuel + 1, heap, t, some p =>
    match heap[p]? with
    | some (some n) =>
      if p = t then n.data.isNone && n.next.isNone
      else n.data.isSome && n.next.isSome && reaches_tail fuel heap t n.next
    | _ => false

/-- The list of a queue is well formed: the walk from `head` arrives at `tail`. -/
def well_formed (q : thread_safe_queue T) : Bool :=
  reaches_tail q.heap.length q.heap q.tail q.head

end thread_safe_queue

/-! ## Representation predicates -/

namespace thread_safe_queue

variable {T : Type}

/-- The nodes from `h` to the dummy node `t` form a list carrying `vs`: every node before
`t` holds a value and points at a later cell, `t` itself holds nothing. -/
def Chain (heap : List (Option (node T))) (t : Nat) : Nat → List T → Prop
  | h, [] => h = t ∧ heap[t]? = some (some { data := none, next := none })
  | h, v :: vs =>
    ∃ h1, heap[h]? = some (some { data := some v, next := some h1 }) ∧ h < h1 ∧
      Chain heap t h1 vs

/-- The queue holds exactly the values `vs`, oldest first. -/
def Rep (q : thread_safe_queue T) (vs : List T) : Prop :=
  ∃ h, q.head = some h ∧ Chain q.heap q.tail h vs

end thread_safe_queue

namespace lock_free_stack

variable {T : Type}

/-- The nodes reachable from the counted pointer `cp` form a stack carrying `vs`, top first:
each node is referenced with external count 1, has internal count 0, holds its value and
points at an older cell. -/
def Stk (heap : List (Option (node T))) : counted_node_ptr → List T → Prop
  | cp, [] => cp.ptr = none
  | cp, v :: vs =>
    ∃ p nxt, cp = { external_count := 1, ptr := some p } ∧
      heap[p]? = some (some { data := some v, internal_count := 0, next := nxt }) ∧
      (∀ q, nxt.ptr = some q → q < p) ∧ Stk heap nxt vs

/-- The stack holds exactly the values `vs`, top first. -/
def Holds (s : lock_free_stack T) (vs : List T) : Prop := Stk s.heap s.head vs

end lock_free_stack

namespace arrow

open std internal

/-- A task as the worker of a queueing executor runs it: on the promise alone, the state of
the executor being `s0` meanwhile. -/
def on_promise {S R E : Type} (s0 : S)
    (task : FnOnce (S × SharedState R E) Unit Unit (Exception E)) :
    FnOnce (SharedState R E) Unit Unit (Exception E) :=
  { impl_ := task.impl_.map fun held =>
      { invoke := fun a promise =>
          ((held.invoke a (s0, promise)).1, (held.invoke a (s0, promise)).2.2)
        dtor := fun promise => (held.dtor (s0, promise)).2 } }

/-- An executor whose `SpawnReal` accepts every task and appends it to a queue of pending
tasks, which is its state; it neither runs nor destroys the task. -/
def queueing_executor (R E : Type) :
    Executor (List (FnOnce (SharedState R E) Unit Unit (Exception E))) R E where
  SpawnReal := fun _ task _ _ w => (Status.OK, (w.1 ++ [on_promise [] task], w.2))

/-- The function template `add` of `examples/submit_future.cc` at `T = int`; its sleep has no
effect on the value. -/
def add (x y : Int) : Int := int32 (x + y)

/-- The function template `sub` of `examples/submit_future.cc` at `T = int`. -/
def sub (x y : Int) : Int := int32 (x - y)

/-- The function template `mul` of `examples/submit_future.cc` at `T = int`. -/
def mul (x y : Int) : Int := int32 (x * y)

/-- The function `int sum(int a, int b)` of `examples/submit_future.cc`:
`add(a, b) + sub(a, b) + mul(a, b)` in 32-bit `int` arithmetic; it never throws. -/
def sum (ab : Int × Int) : Except Status Int :=
  .ok (int32 (int32 (add ab.1 ab.2 + sub ab.1 ab.2) + mul ab.1 ab.2))

/-- A function that throws the failure it is given. -/
def throwing (e : Status) : Except Status Int := .error e

/-- A function that returns nothing (`void`) and does not throw. -/
def returns_nothing (_ : Unit) : Except Status Unit := .ok ()

/-- The future holds a Cancelled failure: its shared state is ready with a thrown status of
kind Cancelled. -/
def holds_cancelled {R : Type} : SharedState R Status → Bool
  | .exception (.thrown st) => decide (st.code = StatusCode.Cancelled)
  | _ => false

end arrow

/-! ## Lemmas on the heap -/

theorem heap_lt_of_get {α : Type} {l : List α} {i : Nat} {a : α} (h : l[i]? = some a) :
    i < l.length := by
  by_contra hc
  rw [List.getElem?_eq_none (Nat.le_of_not_lt hc)] at h
  cases h

namespace thread_safe_queue

variable {T : Type}

theorem Chain.le {heap : List (Option (node T))} {t : Nat} :
    ∀ {vs : List T} {h : Nat}, Chain heap t h vs → h ≤ t
  | [], h, hc => by
    simp only [Chain] at hc
    exact le_of_eq hc.1
  | _ :: vs, h, hc => by
    simp only [Chain] at hc
    obtain ⟨h1, _, hlt, hrest⟩ := hc
    have := Chain.le hrest
    omega

theorem Chain.tail_dummy {heap : List (Option (node T))} {t : Nat} :
    ∀ {vs : List T} {h : Nat}, Chain heap t h vs →
      heap[t]? = some (some { data := none, next := none })
  | [], h, hc => by
    simp only [Chain] at hc
    exact hc.2
  | _ :: vs, h, hc => by
    simp only [Chain] at hc
    obtain ⟨h1, _, _, hrest⟩ := hc
    exact Chain.tail_dummy hrest

/-- A chain only depends on the cells from its first node on. -/
theorem Chain.frame {heap heap1 : List (Option (node T))} {t : Nat} :
    ∀ {vs : List T} {h : Nat}, Chain heap t h vs →
      (∀ p, h ≤ p → p ≤ t → heap1[p]? = heap[p]?) → Chain heap1 t h vs
  | [], h, hc, hfr => by
    simp only [Chain] at hc ⊢
    refine ⟨hc.1, ?_⟩
    rw [hfr t (le_of_eq hc.1) le_rfl]
    exact hc.2
  | _ :: vs, h, hc, hfr => by
    simp only [Chain] at hc ⊢
    obtain ⟨h1, hh, hlt, hrest⟩ := hc
    have hle := Chain.le hrest
    refine ⟨h1, ?_, hlt, Chain.frame hrest ?_⟩
    · rw [hfr h le_rfl (by omega)]
      exact hh
    · intro p hp hpt
      exact hfr p (by omega) hpt

/-- Appending a value to a chain: what the three heap updates of `push` achieve. -/
theorem Chain.snoc {heap heap1 : List (Option (node T))} {t t1 : Nat} (v : T)
    (hlt : t < t1)
    (hold : ∀ p, p < t → heap1[p]? = heap[p]?)
    (ht : heap1[t]? = some (some { data := some v, next := some t1 }))
    (ht1 : heap1[t1]? = some (some { data := none, next := none })) :
    ∀ {vs : List T} {h : Nat}, Chain heap t h vs → Chain heap1 t1 h (vs ++ [v])
  | [], h, hc => by
    simp only [Chain] at hc
    simp only [List.nil_append, Chain]
    refine ⟨t1, ?_, ?_, rfl, ht1⟩
    · rw [hc.1]
      exact ht
    · rw [hc.1]
      exact hlt
  | _ :: vs, h, hc => by
    simp only [Chain] at hc
    obtain ⟨h1, hh, hlt1, hrest⟩ := hc
    have hle := Chain.le hrest
    simp only [List.cons_append, Chain]
    refine ⟨h1, ?_, hlt1, Chain.snoc v hlt hold ht ht1 hrest⟩
    rw [hold h (by omega)]
    exact hh

theorem Rep.of_ctor : Rep (ctor : thread_safe_queue T) [] :=
  ⟨0, rfl, rfl, rfl⟩

/-- On a queue whose tail is the dummy node `push` returns, and this is the state it
leaves. -/
theorem push_eq (q : thread_safe_queue T) (v : T)
    (htd : q.heap[q.tail]? = some (some { data := none, next := none })) :
    push q v = .ok
      { heap := ((q.heap ++ [some ({ data := none, next := none } : node T)]).set q.tail
            (some { data := some v, next := none })).set q.tail
            (some { data := some v, next := some q.heap.length }),
        head := q.head, tail := q.heap.length } := by
  have htl : q.tail < q.heap.length := heap_lt_of_get htd
  have h1 : (q.heap ++ [some ({ data := none, next := none } : node T)])[q.tail]? =
      some (some { data := none, next := none }) := by
    rw [List.getElem?_append_left htl]
    exact htd
  have hlen1 : q.tail < q.heap.length + 1 := by omega
  simp [thread_safe_queue.push, deref, h1, hlen1]

theorem Rep.after_push {q : thread_safe_queue T} {vs : List T} (hr : Rep q vs) (v : T) :
    ∃ q1, push q v = .ok q1 ∧ Rep q1 (vs ++ [v]) := by
  obtain ⟨h, hh, hc⟩ := hr
  have htd := Chain.tail_dummy hc
  have htl : q.tail < q.heap.length := heap_lt_of_get htd
  refine ⟨_, push_eq q v htd, h, hh, Chain.snoc v htl ?_ ?_ ?_ hc⟩
  · intro p hp
    simp only []
    rw [List.getElem?_set_ne (by omega), List.getElem?_set_ne (by omega),
      List.getElem?_append_left (by omega)]
  · simp only []
    rw [List.getElem?_set_self (by simp; omega)]
  · simp only []
    rw [List.getElem?_set_ne (by omega), List.getElem?_set_ne (by omega),
      List.getElem?_concat_length]

/-- Destroying the owner of a node whose `next` is null frees exactly that node. -/
theorem delete_node_single (heap : List (Option (node T))) (p : Nat) (n : node T)
    (hp : heap[p]? = some (some n)) (hnext : n.next = none) :
    delete_node heap.length (some p) heap = heap.set p none := by
  have hlt : p < heap.length := heap_lt_of_get hp
  obtain ⟨k, hk⟩ : ∃ k, heap.length = k + 1 := ⟨heap.length - 1, by omega⟩
  rw [hk]
  cases k <;> simp [delete_node, hp, hnext]

theorem pop_head_eq (q : thread_safe_queue T) (h : Nat) (n : node T)
    (hh : q.head = some h) (hn : q.heap[h]? = some (some n)) :
    pop_head q = .ok (some h,
      { heap := q.heap.set h (some { n with next := none }), head := n.next, tail := q.tail }) := by
  simp [pop_head, hh, deref, hn]

/-- On a non-empty queue `wait_and_pop` returns the data of the head node, frees that node
and moves `head` to its successor. -/
theorem wait_and_pop_eq (q : thread_safe_queue T) (h : Nat) (n : node T)
    (hh : q.head = some h) (hn : q.heap[h]? = some (some n)) (hne : h ≠ q.tail) :
    wait_and_pop q = .ok (n.data,
      { heap := q.heap.set h none, head := n.next, tail := q.tail }) := by
  have hlt : h < q.heap.length := heap_lt_of_get hn
  have hget : (q.heap.set h (some { n with next := none }))[h]? =
      some (some { n with next := none }) := List.getElem?_set_self hlt
  have hdel := delete_node_single (q.heap.set h (some { n with next := none })) h
    { n with next := none } hget rfl
  simp only [List.set_set] at hdel
  simp only [wait_and_pop, wait_pop_head, wait_for_data, get_tail, hh, ne_eq, Option.some.injEq,
    hne, not_false_eq_true, if_true, pop_head_eq q h n hh hn, deref, hget, hdel]

/-- On a non-empty queue `try_pop` does what `wait_and_pop` does. -/
theorem try_pop_eq (q : thread_safe_queue T) (h : Nat) (n : node T)
    (hh : q.head = some h) (hn : q.heap[h]? = some (some n)) (hne : h ≠ q.tail) :
    try_pop q = .ok (n.data,
      { heap := q.heap.set h none, head := n.next, tail := q.tail }) := by
  have hlt : h < q.heap.length := heap_lt_of_get hn
  have hget : (q.heap.set h (some { n with next := none }))[h]? =
      some (some { n with next := none }) := List.getElem?_set_self hlt
  have hdel := delete_node_single (q.heap.set h (some { n with next := none })) h
    { n with next := none } hget rfl
  simp only [List.set_set] at hdel
  simp only [try_pop, try_pop_head, get_tail, hh, Option.some.injEq,
    hne, if_false, pop_head_eq q h n hh hn, deref, hget, hdel]

/-- On an empty queue `try_pop` returns a null pointer and changes nothing. -/
theorem try_pop_empty (q : thread_safe_queue T) (hh : q.head = some q.tail) :
    try_pop q = .ok (none, q) := by
  simp [try_pop, try_pop_head, get_tail, hh]

/-- On a non-empty queue `wait_and_pop(value)` writes the data of the head node, frees that
node and moves `head` to its successor. -/
theorem wait_and_pop_ref_eq (q : thread_safe_queue T) (h : Nat) (n : node T) (d value : T)
    (hh : q.head = some h) (hn : q.heap[h]? = some (some n)) (hd : n.data = some d)
    (hne : h ≠ q.tail) :
    wait_and_pop_ref q value = .ok (d,
      { heap := q.heap.set h none, head := n.next, tail := q.tail }) := by
  have hlt : h < q.heap.length := heap_lt_of_get hn
  have hget : (q.heap.set h (some { n with next := none }))[h]? =
      some (some { n with next := none }) := List.getElem?_set_self hlt
  have hdel := delete_node_single (q.heap.set h (some { n with next := none })) h
    { n with next := none } hget rfl
  simp only [List.set_set] at hdel
  rw [hd] at hdel
  simp only [wait_and_pop_ref, wait_pop_head_ref, wait_for_data, get_tail, hh, ne_eq,
    Option.some.injEq, hne, not_false_eq_true, if_true, pop_head_eq q h n hh hn, deref, hn, hd,
    hdel]

/-- On a non-empty queue `try_pop(value)` returns true and does what `wait_and_pop(value)`
does. -/
theorem try_pop_ref_eq (q : thread_safe_queue T) (h : Nat) (n : node T) (d value : T)
    (hh : q.head = some h) (hn : q.heap[h]? = some (some n)) (hd : n.data = some d)
    (hne : h ≠ q.tail) :
    try_pop_ref q value = .ok (true, d,
      { heap := q.heap.set h none, head := n.next, tail := q.tail }) := by
  have hlt : h < q.heap.length := heap_lt_of_get hn
  have hget : (q.heap.set h (some { n with next := none }))[h]? =
      some (some { n with next := none }) := List.getElem?_set_self hlt
  have hdel := delete_node_single (q.heap.set h (some { n with next := none })) h
    { n with next := none } hget rfl
  simp only [List.set_set] at hdel
  rw [hd] at hdel
  simp only [try_pop_ref, try_pop_head_ref, get_tail, hh, Option.some.injEq,
    hne, if_false, pop_head_eq q h n hh hn, deref, hn, hd, hdel, Option.isSome_some]

/-- On an empty queue `try_pop(value)` returns false and changes neither the value nor the
queue. -/
theorem try_pop_ref_empty (q : thread_safe_queue T) (value : T) (hh : q.head = some q.tail) :
    try_pop_ref q value = .ok (false, value, q) := by
  cases q with
  | mk heap head tail =>
    simp only at hh
    subst hh
    simp [try_pop_ref, try_pop_head_ref, get_tail, delete_node]

/-- Each of the four pop operations, on a queue holding `v :: vs`, returns `v` and leaves a
queue holding `vs`. -/
theorem Rep.after_pop {q : thread_safe_queue T} {v : T} {vs : List T} (hr : Rep q (v :: vs)) :
    ∃ q1, Rep q1 vs ∧ wait_and_pop q = .ok (some v, q1) ∧ try_pop q = .ok (some v, q1) ∧
      ∀ value : T, wait_and_pop_out value q = .ok (some v, q1) ∧
        try_pop_out value q = .ok (some v, q1) := by
  obtain ⟨h, hh, hc⟩ := hr
  simp only [Chain] at hc
  obtain ⟨h1, hn, hlt, hrest⟩ := hc
  have hle := Chain.le hrest
  have hne : h ≠ q.tail := by omega
  refine ⟨_, ⟨h1, rfl, ?_⟩, wait_and_pop_eq q h _ hh hn hne, try_pop_eq q h _ hh hn hne, ?_⟩
  · refine Chain.frame hrest ?_
    intro p hp _
    simp only []
    rw [List.getElem?_set_ne (by omega)]
  · intro value
    constructor
    · simp only [wait_and_pop_out, wait_and_pop_ref_eq q h _ v value hh hn rfl hne]
    · simp only [try_pop_out, try_pop_ref_eq q h _ v value hh hn rfl hne]

theorem Rep.empty_iff {q : thread_safe_queue T} {vs : List T} (hr : Rep q vs) :
    empty q = true ↔ vs = [] := by
  obtain ⟨h, hh, hc⟩ := hr
  cases vs with
  | nil =>
    simp only [Chain] at hc
    simp [empty, get_tail, hh, hc.1]
  | cons v vs =>
    simp only [Chain] at hc
    obtain ⟨h1, _, hlt, hrest⟩ := hc
    have hle := Chain.le hrest
    have hne : h ≠ q.tail := by omega
    simp [empty, get_tail, hh, hne]

theorem Rep.after_push_all :
    ∀ (xs : List T) {vs : List T} {q : thread_safe_queue T}, Rep q vs →
      ∃ q1, push_all xs q = .ok q1 ∧ Rep q1 (vs ++ xs)
  | [], _, q, hr => ⟨q, rfl, by simpa using hr⟩
  | x :: xs, vs, q, hr => by
    obtain ⟨q1, hq1, hr1⟩ := Rep.after_push hr x
    obtain ⟨q2, hq2, hr2⟩ := Rep.after_push_all xs hr1
    refine ⟨q2, ?_, by simpa using hr2⟩
    simp only [thread_safe_queue.push_all, hq1]
    exact hq2

/-- A pop operation that returns the front value of every non-empty queue, called once per
element, returns the whole content in order and leaves an empty queue. -/
theorem Rep.after_pops (pop : thread_safe_queue T → Except Stop (Option T × thread_safe_queue T))
    (hpop : ∀ (q : thread_safe_queue T) (v : T) (vs : List T), Rep q (v :: vs) →
      ∃ q1, pop q = .ok (some v, q1) ∧ Rep q1 vs) :
    ∀ (xs : List T) {q : thread_safe_queue T}, Rep q xs →
      ∃ q1, pop_times pop xs.length q = .ok (xs.map some, q1) ∧ Rep q1 []
  | [], q, hr => ⟨q, rfl, hr⟩
  | x :: xs, q, hr => by
    obtain ⟨q1, hp, hr1⟩ := hpop q x xs hr
    obtain ⟨q2, hp2, hr2⟩ := Rep.after_pops pop hpop xs hr1
    exact ⟨q2, by simp only [List.length_cons, pop_times, hp, hp2, List.map_cons], hr2⟩

/-- After the pushes of `xs` on a new queue, `|xs|` calls of such a pop operation return `xs`
and leave a queue on which `empty()` is true. -/
theorem Rep.drain (pop : thread_safe_queue T → Except Stop (Option T × thread_safe_queue T))
    (hpop : ∀ (q : thread_safe_queue T) (v : T) (vs : List T), Rep q (v :: vs) →
      ∃ q1, pop q = .ok (some v, q1) ∧ Rep q1 vs)
    (xs : List T) {q : thread_safe_queue T} (hr : Rep q xs) :
    ∃ q1, pop_times pop xs.length q = .ok (xs.map some, q1) ∧ empty q1 = true := by
  obtain ⟨q1, hp, hr1⟩ := Rep.after_pops pop hpop xs hr
  exact ⟨q1, hp, hr1.empty_iff.mpr rfl⟩

end thread_safe_queue

/-- C1: pushing the elements of `xs` in order onto a newly constructed queue succeeds, and
`|xs|` calls of `wait_and_pop()`, made one after another, then return exactly the elements
of `xs` in push order and leave a queue on which `empty()` is true; the same holds for
`try_pop()` and for the overloads `wait_and_pop(value)` and `try_pop(value)`, whatever the
referenced variable held before. -/
theorem thread_safe_queue.fifo_push_then_pop {T : Type} (xs : List T) :
    ∃ q1 : thread_safe_queue T,
      thread_safe_queue.push_all xs thread_safe_queue.ctor = .ok q1 ∧
      (∃ q2, thread_safe_queue.pop_times thread_safe_queue.wait_and_pop xs.length q1
        = .ok (xs.map some, q2) ∧ thread_safe_queue.empty q2 = true) ∧
      (∃ q2, thread_safe_queue.pop_times thread_safe_queue.try_pop xs.length q1
        = .ok (xs.map some, q2) ∧ thread_safe_queue.empty q2 = true) ∧
      (∀ value : T, ∃ q2,
        thread_safe_queue.pop_times (thread_safe_queue.wait_and_pop_out value) xs.length q1
        = .ok (xs.map some, q2) ∧ thread_safe_queue.empty q2 = true) ∧
      (∀ value : T, ∃ q2,
        thread_safe_queue.pop_times (thread_safe_queue.try_pop_out value) xs.length q1
        = .ok (xs.map some, q2) ∧ thread_safe_queue.empty q2 = true) := by
  obtain ⟨q1, hq1, hr1⟩ := thread_safe_queue.Rep.after_push_all xs thread_safe_queue.Rep.of_ctor
  have hr : thread_safe_queue.Rep q1 xs := by simpa using hr1
  refine ⟨q1, hq1, ?_, ?_, fun value => ?_, fun value => ?_⟩
  · refine thread_safe_queue.Rep.drain _ (fun q v vs h => ?_) xs hr
    obtain ⟨q2, h2, hw, _, _⟩ := thread_safe_queue.Rep.after_pop h
    exact ⟨q2, hw, h2⟩
  · refine thread_safe_queue.Rep.drain _ (fun q v vs h => ?_) xs hr
    obtain ⟨q2, h2, _, ht, _⟩ := thread_safe_queue.Rep.after_pop h
    exact ⟨q2, ht, h2⟩
  · refine thread_safe_queue.Rep.drain _ (fun q v vs h => ?_) xs hr
    obtain ⟨q2, h2, _, _, hv⟩ := thread_safe_queue.Rep.after_pop h
    exact ⟨q2, (hv value).1, h2⟩
  · refine thread_safe_queue.Rep.drain _ (fun q v vs h => ?_) xs hr
    obtain ⟨q2, h2, _, _, hv⟩ := thread_safe_queue.Rep.after_pop h
    exact ⟨q2, (hv value).2, h2⟩

namespace lock_free_stack

variable {T : Type}

theorem int32_small : int32 2 = 2 ∧ int32 0 = 0 := by
  decide

/-- A stack only depends on the cells below a bound on its top pointer. -/
theorem Stk.frame_below {heap heap1 : List (Option (node T))} :
    ∀ {vs : List T} {cp : counted_node_ptr} (b : Nat), Stk heap cp vs →
      (∀ p, cp.ptr = some p → p < b) → (∀ q, q < b → heap1[q]? = heap[q]?) →
      Stk heap1 cp vs
  | [], cp, _, hs, _, _ => by
    simp only [Stk] at hs ⊢
    exact hs
  | _ :: vs, cp, b, hs, hb, hfr => by
    simp only [Stk] at hs ⊢
    obtain ⟨p, nxt, hcp, hp, hlt, hrest⟩ := hs
    have hpb : p < b := hb p (by rw [hcp])
    refine ⟨p, nxt, hcp, ?_, hlt, Stk.frame_below p hrest hlt ?_⟩
    · rw [hfr p hpb]
      exact hp
    · intro q hq
      exact hfr q (by omega)

theorem Stk.top_lt {heap : List (Option (node T))} {vs : List T} {cp : counted_node_ptr}
    (hs : Stk heap cp vs) : ∀ p, cp.ptr = some p → p < heap.length := by
  intro p hp
  cases vs with
  | nil =>
    simp only [Stk] at hs
    rw [hs] at hp
    cases hp
  | cons v vs =>
    simp only [Stk] at hs
    obtain ⟨p1, nxt, hcp, hp1, _, _⟩ := hs
    rw [hcp] at hp
    cases hp
    exact heap_lt_of_get hp1

/-- With fuel for one iteration `push` returns, and this is the state it leaves. -/
theorem push_returns (fuel : Nat) (s : lock_free_stack T) (v : T) :
    push (fuel + 1) s v = .ok
      { heap := s.heap ++ [some { data := some v, internal_count := 0, next := s.head }],
        head := { external_count := 1, ptr := some s.heap.length } } := by
  simp [push, push_loop, deref, compare_exchange_strong]

theorem Stk.push_top {s : lock_free_stack T} {vs : List T} (hr : Holds s vs) (fuel : Nat) (v : T) :
    ∃ s1, push (fuel + 1) s v = .ok s1 ∧ Holds s1 (v :: vs) := by
  refine ⟨_, push_returns fuel s v, ?_⟩
  simp only [Holds, Stk]
  refine ⟨s.heap.length, s.head, rfl, List.getElem?_concat_length _ _, hr.top_lt, ?_⟩
  refine Stk.frame_below s.heap.length hr hr.top_lt ?_
  intro q hq
  exact List.getElem?_append_left hq

/-- With fuel for one iteration `pop` on a non-empty stack returns the value of the top
node, deletes that node and moves `head` to its successor. -/
theorem pop_returns (fuel : Nat) (s : lock_free_stack T) (p : Nat) (v : Option T)
    (nxt : counted_node_ptr)
    (hh : s.head = { external_count := 1, ptr := some p })
    (hp : s.heap[p]? = some (some { data := v, internal_count := 0, next := nxt })) :
    pop (fuel + 1) s = .ok (v, { heap := s.heap.set p none, head := nxt }) := by
  obtain ⟨h2, h0⟩ := int32_small
  simp [pop, pop_loop, increase_head_count, compare_exchange_strong, hh, deref, hp, h2, h0]

/-- With fuel for one iteration `pop` on an empty stack returns a null pointer. -/
theorem pop_null (fuel : Nat) (s : lock_free_stack T) (hh : s.head.ptr = none) :
    ∃ s1, pop (fuel + 1) s = .ok (none, s1) ∧ s1.head.ptr = none ∧ s1.heap = s.heap := by
  simp [pop, pop_loop, increase_head_count, compare_exchange_strong, hh]

theorem Stk.pop_top {s : lock_free_stack T} {v : T} {vs : List T} (hr : Holds s (v :: vs))
    (fuel : Nat) : ∃ s1, pop (fuel + 1) s = .ok (some v, s1) ∧ Holds s1 vs := by
  simp only [Holds, Stk] at hr
  obtain ⟨p, nxt, hcp, hp, hlt, hrest⟩ := hr
  refine ⟨_, pop_returns fuel s p (some v) nxt hcp hp, ?_⟩
  refine Stk.frame_below p hrest hlt ?_
  intro q hq
  simp only []
  rw [List.getElem?_set_ne (by omega)]

theorem Stk.push_list (fuel : Nat) :
    ∀ (xs : List T) {vs : List T} {s : lock_free_stack T}, Holds s vs →
      ∃ s1, push_all (fuel + 1) xs s = .ok s1 ∧ Holds s1 (xs.reverse ++ vs)
  | [], _, s, hr => ⟨s, rfl, by simpa using hr⟩
  | x :: xs, vs, s, hr => by
    obtain ⟨s1, hs1, hr1⟩ := Stk.push_top hr fuel x
    obtain ⟨s2, hs2, hr2⟩ := Stk.push_list fuel xs hr1
    refine ⟨s2, ?_, by simpa using hr2⟩
    simp only [lock_free_stack.push_all, hs1]
    exact hs2

theorem Stk.pop_list (fuel : Nat) :
    ∀ (vs : List T) {s : lock_free_stack T}, Holds s vs →
      ∃ s1, pop_times (fuel + 1) vs.length s = .ok (vs.map some, s1) ∧ Holds s1 []
  | [], s, hr => ⟨s, rfl, hr⟩
  | v :: vs, s, hr => by
    obtain ⟨s1, hs1, hr1⟩ := Stk.pop_top hr fuel
    obtain ⟨s2, hs2, hr2⟩ := Stk.pop_list fuel vs hr1
    refine ⟨s2, ?_, hr2⟩
    simp only [List.length_cons, pop_times, hs1, hs2, List.map_cons]

end lock_free_stack

/-- C2: with fuel for at least one loop iteration per call, pushing the elements of `xs` in
order onto a new stack succeeds, `|xs|` calls of `pop` made one after another then return the
elements of `xs` in reverse push order, and the next `pop` returns a null pointer. -/
theorem lock_free_stack.lifo_push_then_pop {T : Type} (fuel : Nat) (xs : List T) :
    ∃ s1 s2 s3 : lock_free_stack T,
      lock_free_stack.push_all (fuel + 1) xs lock_free_stack.ctor = .ok s1 ∧
      lock_free_stack.pop_times (fuel + 1) xs.length s1 = .ok (xs.reverse.map some, s2) ∧
      lock_free_stack.pop (fuel + 1) s2 = .ok (none, s3) := by
  have h0 : lock_free_stack.Holds (lock_free_stack.ctor : lock_free_stack T) [] := rfl
  obtain ⟨s1, hs1, hr1⟩ := lock_free_stack.Stk.push_list fuel xs h0
  obtain ⟨s2, hs2, hr2⟩ := lock_free_stack.Stk.pop_list fuel (xs.reverse ++ []) hr1
  obtain ⟨s3, hs3, _⟩ := lock_free_stack.pop_null fuel s2 hr2
  refine ⟨s1, s2, s3, hs1, ?_, hs3⟩
  simpa using hs2

namespace arrow

open std internal

variable {S A R E : Type}

/-- What `Submit` returns is decided by the status of `SpawnReal` alone. -/
theorem Executor.Submit_eq (ex : Executor S R E) (is_void_v : Bool) (hints : TaskHints)
    (tok : StopToken) (cb : StopCallback (S × SharedState R E) E)
    (func : A → Except E R) (xs : A) (s : S) :
    (ex.Submit is_void_v hints tok cb func xs s).1 =
      if (ex.SpawnReal hints (FnOnce.of (Submit.task is_void_v func xs)) tok cb
          (s, SharedState.not_ready)).1.ok
      then .ok { valid := true }
      else .error (.runtime_error "Failed to submit task") := by
  unfold Executor.Submit
  cases hok : (ex.SpawnReal hints (FnOnce.of (Submit.task is_void_v func xs)) tok cb
      (s, SharedState.not_ready)).1.ok <;> simp [hok]

/-- Invoking the task of a function that returns `v`, non-void instantiation. -/
theorem Submit.task_call_value (func : A → Except E R) (xs : A) (v : R) (s : S)
    (hf : func xs = .ok v) :
    (FnOnce.of (Submit.task false func xs)).call () (s, SharedState.not_ready) =
      some (.ok (), FnOnce.ctor, (s, SharedState.value v)) := by
  simp [FnOnce.call, FnOnce.of, FnOnce.ctor, Submit.task, Submit.lambda, hf,
    std.promise.set_value, std.promise.dtor]

/-- Invoking the task of a function that throws `e`, either instantiation. -/
theorem Submit.task_call_throws (is_void_v : Bool) (func : A → Except E R) (xs : A) (e : E)
    (s : S) (hf : func xs = .error e) :
    (FnOnce.of (Submit.task is_void_v func xs)).call () (s, SharedState.not_ready) =
      some (.ok (), FnOnce.ctor, (s, SharedState.exception (.thrown e))) := by
  cases is_void_v <;>
    simp [FnOnce.call, FnOnce.of, FnOnce.ctor, Submit.task, Submit.lambda, hf,
      std.promise.set_exception, std.promise.dtor]

end arrow

/-- C3: for a function `func` with a non-void result and arguments `xs` such that
`func(xs)` returns `v`: if `SpawnReal`, called by `Submit` with the task it built and the
new promise, accepts the task and keeps it pending (the promise is still not ready in the
state it leaves), then `Submit` returns the valid future and leaves the state `SpawnReal`
left, and invoking that task in the state `Submit` left returns normally, leaves the
executor state alone and makes the shared state of the future ready with exactly `v`,
which `get()` then returns. -/
theorem arrow.Executor.Submit_future_value {S A R E : Type} (ex : arrow.Executor S R E)
    (hints : arrow.TaskHints) (tok : arrow.StopToken)
    (cb : arrow.StopCallback (S × std.SharedState R E) E)
    (func : A → Except E R) (xs : A) (v : R) (s : S)
    (hf : func xs = .ok v)
    (hacc : (ex.SpawnReal hints (arrow.internal.FnOnce.of (arrow.Submit.task false func xs))
      tok cb (s, std.SharedState.not_ready)).1.ok = true)
    (hpending : (ex.Submit false hints tok cb func xs s).2.2 = std.SharedState.not_ready) :
    ex.Submit false hints tok cb func xs s =
      (.ok { valid := true },
        (ex.SpawnReal hints (arrow.internal.FnOnce.of (arrow.Submit.task false func xs))
          tok cb (s, std.SharedState.not_ready)).2) ∧
    (arrow.internal.FnOnce.of (arrow.Submit.task false func xs)).call ()
        (ex.Submit false hints tok cb func xs s).2 =
      some (.ok (), arrow.internal.FnOnce.ctor,
        ((ex.Submit false hints tok cb func xs s).2.1, std.SharedState.value v)) ∧
    ((arrow.internal.FnOnce.of (arrow.Submit.task false func xs)).call ()
        (ex.Submit false hints tok cb func xs s).2).map (fun r => std.future.get r.2.2.2) =
      some (some (.ok v)) := by
  have hcall : (arrow.internal.FnOnce.of (arrow.Submit.task false func xs)).call ()
      (ex.Submit false hints tok cb func xs s).2 =
      some (.ok (), arrow.internal.FnOnce.ctor,
        ((ex.Submit false hints tok cb func xs s).2.1, std.SharedState.value v)) := by
    have h := arrow.Submit.task_call_value func xs v (ex.Submit false hints tok cb func xs s).2.1 hf
    rw [← hpending] at h
    exact h
  refine ⟨?_, hcall, ?_⟩
  · simp only [arrow.Executor.Submit, hacc]
    rfl
  · rw [hcall]
    rfl

theorem arrow.Executor.Submit_future_value_witness :
    arrow.sum (10, 20) = .ok 220 ∧
    ((arrow.queueing_executor Int arrow.Status).SpawnReal {}
      (arrow.internal.FnOnce.of (arrow.Submit.task false arrow.sum (10, 20)))
      arrow.StopToken.Unstoppable arrow.internal.FnOnce.ctor
      ([], std.SharedState.not_ready)).1.ok = true ∧
    ((arrow.queueing_executor Int arrow.Status).Submit false {} arrow.StopToken.Unstoppable
      arrow.internal.FnOnce.ctor arrow.sum (10, 20) []).2.2 = std.SharedState.not_ready ∧
    ((arrow.queueing_executor Int arrow.Status).Submit false {} arrow.StopToken.Unstoppable
      arrow.internal.FnOnce.ctor arrow.sum (10, 20) []).1 = .ok { valid := true } ∧
    ((arrow.queueing_executor Int arrow.Status).Submit false {} arrow.StopToken.Unstoppable
      arrow.internal.FnOnce.ctor arrow.sum (10, 20) []).2.1.length = 1 ∧
    ((arrow.internal.FnOnce.of (arrow.Submit.task false arrow.sum (10, 20))).call ()
        ((arrow.queueing_executor Int arrow.Status).Submit false {}
          arrow.StopToken.Unstoppable arrow.internal.FnOnce.ctor arrow.sum (10, 20) []).2).map
        (fun r => std.future.get r.2.2.2) = some (some (.ok 220)) ∧
    ((arrow.queueing_executor Int arrow.Status).Submit false {} arrow.StopToken.Unstoppable
      arrow.internal.FnOnce.ctor arrow.sum (10, 20) []).2.1.map
        (fun pending => (pending.call () std.SharedState.not_ready).map
          (fun r => std.future.get r.2.2)) = [some (some (.ok 220))] :=
  ⟨rfl, rfl, rfl, rfl, rfl,
    (arrow.Executor.Submit_future_value (arrow.queueing_executor Int arrow.Status) {}
      arrow.StopToken.Unstoppable arrow.internal.FnOnce.ctor arrow.sum (10, 20) 220 []
      rfl rfl rfl).2.2, rfl⟩

/-- C4: for a function `func` (void or not) and arguments `xs` such that `func(xs)` throws
`e`, invoking the task that `Submit` built returns normally (nothing escapes to the caller
of the task) and leaves the shared state of the future ready with the failure `e`, which
`get()` then rethrows. -/
theorem arrow.Submit.task_confines_failure {S A R E : Type} (is_void_v : Bool)
    (func : A → Except E R) (xs : A) (e : E) (s : S) (hf : func xs = .error e) :
    (arrow.Submit.lambda is_void_v func xs std.SharedState.not_ready).1 = .ok () ∧
    (arrow.internal.FnOnce.of (arrow.Submit.task is_void_v func xs)).call ()
        (s, std.SharedState.not_ready) =
      some (.ok (), arrow.internal.FnOnce.ctor,
        (s, std.SharedState.exception (std.Exception.thrown e))) ∧
    std.future.get (std.SharedState.exception (std.Exception.thrown e) : std.SharedState R E)
      = some (.error (std.Exception.thrown e)) := by
  refine ⟨?_, arrow.Submit.task_call_throws is_void_v func xs e s hf, rfl⟩
  cases is_void_v <;> simp [arrow.Submit.lambda, hf, std.promise.set_exception]

theorem arrow.Submit.task_confines_failure_witness :
    arrow.throwing (arrow.Status.mk arrow.StatusCode.Invalid "bad input") =
      .error (arrow.Status.mk arrow.StatusCode.Invalid "bad input") ∧
    (arrow.Submit.lambda false arrow.throwing
      (arrow.Status.mk arrow.StatusCode.Invalid "bad input")
      std.SharedState.not_ready).1 = .ok () ∧
    (arrow.internal.FnOnce.of (arrow.Submit.task false arrow.throwing
        (arrow.Status.mk arrow.StatusCode.Invalid "bad input"))).call ()
        ((), std.SharedState.not_ready) =
      some (.ok (), arrow.internal.FnOnce.ctor,
        ((), std.SharedState.exception (std.Exception.thrown
          (arrow.Status.mk arrow.StatusCode.Invalid "bad input")))) ∧
    std.future.get (std.SharedState.exception (std.Exception.thrown
        (arrow.Status.mk arrow.StatusCode.Invalid "bad input")) :
        std.SharedState Int arrow.Status)
      = some (.error (std.Exception.thrown
          (arrow.Status.mk arrow.StatusCode.Invalid "bad input"))) :=
  ⟨rfl, arrow.Submit.task_confines_failure false arrow.throwing
    (arrow.Status.mk arrow.StatusCode.Invalid "bad input")
    (arrow.Status.mk arrow.StatusCode.Invalid "bad input") () rfl⟩

/-- C5, the code at the failing input: for the void function that returns at once, the
body of the task returns without making the shared state ready, the destruction of the
task that ends the invocation then stores `broken_promise`, and `get()` rethrows it. -/
theorem arrow.Submit.void_task_breaks_promise :
    arrow.Submit.lambda true arrow.returns_nothing () std.SharedState.not_ready =
      (.ok (), std.SharedState.not_ready) ∧
    (std.future.get (arrow.Submit.lambda true arrow.returns_nothing ()
      std.SharedState.not_ready).2 = none) ∧
    (arrow.internal.FnOnce.of (arrow.Submit.task true arrow.returns_nothing ())).call ()
        ((), std.SharedState.not_ready) =
      some (.ok (), arrow.internal.FnOnce.ctor,
        ((), std.SharedState.exception std.Exception.broken_promise)) ∧
    std.future.get (std.SharedState.exception std.Exception.broken_promise :
        std.SharedState Unit arrow.Status)
      = some (.error std.Exception.broken_promise) :=
  ⟨rfl, rfl, rfl, rfl⟩

/-- C6: `Submit` raises a failure exactly when `SpawnReal` returns a status that is not OK
for the task, the failure being `std::runtime_error("Failed to submit task")`, and returns
the valid future when `SpawnReal` returns OK. -/
theorem arrow.Executor.Submit_raises_iff {S A R E : Type} (ex : arrow.Executor S R E)
    (is_void_v : Bool) (hints : arrow.TaskHints) (tok : arrow.StopToken)
    (cb : arrow.StopCallback (S × std.SharedState R E) E)
    (func : A → Except E R) (xs : A) (s : S) :
    ((∃ e, (ex.Submit is_void_v hints tok cb func xs s).1 = .error e) ↔
      (ex.SpawnReal hints (arrow.internal.FnOnce.of (arrow.Submit.task is_void_v func xs))
        tok cb (s, std.SharedState.not_ready)).1.ok = false) ∧
    ((ex.Submit is_void_v hints tok cb func xs s).1 =
      if (ex.SpawnReal hints (arrow.internal.FnOnce.of (arrow.Submit.task is_void_v func xs))
          tok cb (s, std.SharedState.not_ready)).1.ok
      then .ok { valid := true }
      else .error (std.Exception.runtime_error "Failed to submit task")) := by
  refine ⟨?_, arrow.Executor.Submit_eq ex is_void_v hints tok cb func xs s⟩
  rw [arrow.Executor.Submit_eq]
  cases (ex.SpawnReal hints (arrow.internal.FnOnce.of (arrow.Submit.task is_void_v func xs))
      tok cb (s, std.SharedState.not_ready)).1.ok <;> simp

/-- C7, counterexample: the task built for `sum(10, 20)`, destroyed without having been
invoked, leaves the shared state of the future ready with `broken_promise`, which is not a
Cancelled failure. -/
theorem arrow.Submit.abandoned_not_cancelled :
    (arrow.internal.FnOnce.of (arrow.Submit.task false arrow.sum (10, 20))).dtor
        ((), std.SharedState.not_ready) =
      ((), std.SharedState.exception std.Exception.broken_promise) ∧
    arrow.holds_cancelled ((arrow.internal.FnOnce.of
      (arrow.Submit.task false arrow.sum (10, 20))).dtor
        ((), std.SharedState.not_ready)).2 = false :=
  ⟨rfl, rfl⟩

/-- C7, amended: when the task that `Submit` built is destroyed without ever being
invoked, the future returned by `Submit` becomes ready with the failure
`std::future_error(broken_promise)`, stored by the destructor of the captured promise, and
`get()` rethrows that failure. -/
theorem arrow.Submit.abandoned_breaks_promise {S A R E : Type} (is_void_v : Bool)
    (func : A → Except E R) (xs : A) (s : S) :
    (arrow.internal.FnOnce.of (arrow.Submit.task is_void_v func xs)).dtor
        (s, std.SharedState.not_ready) =
      (s, std.SharedState.exception std.Exception.broken_promise) ∧
    std.future.get (std.SharedState.exception std.Exception.broken_promise :
        std.SharedState R E)
      = some (.error std.Exception.broken_promise) :=
  ⟨rfl, rfl⟩

namespace arrow

theorem Status.Cancelled_not_ok (msg : String) : (Status.Cancelled msg).ok = false := rfl

/-- On a stop state whose flag is 0, `RequestStop` with a failure returns and stores it. -/
theorem StopSourceImpl.RequestStop_fresh (impl : StopSourceImpl) (st : Status)
    (hreq : impl.requested_ = 0) (hst : st.ok = false) :
    impl.RequestStop st = .ok { requested_ := -1, cancel_error_ := st } := by
  simp [StopSourceImpl.RequestStop, hreq, hst]

/-- On a stop state whose flag is set, `RequestStop` with a failure returns and writes
nothing. -/
theorem StopSourceImpl.RequestStop_again (impl : StopSourceImpl) (st : Status)
    (hreq : impl.requested_ ≠ 0) (hst : st.ok = false) :
    impl.RequestStop st = .ok impl := by
  simp [StopSourceImpl.RequestStop, hreq, hst]

/-- A poll of a stop state with a set flag and a stored failure returns that failure and
writes nothing. -/
theorem StopSourceImpl.Poll_stored (impl : StopSourceImpl)
    (hreq : impl.requested_ ≠ 0) (herr : impl.cancel_error_.ok = false) :
    impl.Poll = .ok (impl.cancel_error_, impl) := by
  simp [StopSourceImpl.Poll, hreq, herr]

/-- After the source stored a failure, a poll through its token returns it. -/
theorem StopToken.Poll_after (src : StopSource) (mem : StopHeap) (impl : StopSourceImpl)
    (st : Status) (hsrc : mem[src.impl_]? = some impl) (hreq : impl.requested_ = 0)
    (hst : st.ok = false) :
    src.RequestStop st mem = .ok (mem.set src.impl_ { requested_ := -1, cancel_error_ := st }) ∧
    src.token.Poll (mem.set src.impl_ { requested_ := -1, cancel_error_ := st }) =
      .ok (st, mem.set src.impl_ { requested_ := -1, cancel_error_ := st }) := by
  have hlt : src.impl_ < mem.length := heap_lt_of_get hsrc
  constructor
  · simp [StopSource.RequestStop, hsrc, StopSourceImpl.RequestStop_fresh impl st hreq hst]
  · have hp : (⟨-1, st⟩ : StopSourceImpl).Poll = .ok (st, ⟨-1, st⟩) :=
      StopSourceImpl.Poll_stored ⟨-1, st⟩ (by simp) hst
    simp [StopToken.Poll, StopSource.token, List.getElem?_set_self hlt, hp]

end arrow

/-- C8: for a stop source whose flag is 0 and a failure `st` (not OK), `RequestStop(st)`
returns, and afterwards `Poll()` on the token of that source returns `st`; the token is
the same value whether taken before or after the request.  After the argument-less
`RequestStop()` it returns `Cancelled("Operation cancelled")`. -/
theorem arrow.StopToken.Poll_returns_requested (src : arrow.StopSource)
    (mem : arrow.StopHeap) (impl : arrow.StopSourceImpl) (st : arrow.Status)
    (hsrc : mem[src.impl_]? = some impl) (hreq : impl.requested_ = 0)
    (hst : st.ok = false) :
    (∃ mem1, src.RequestStop st mem = .ok mem1 ∧
      ∀ tok : arrow.StopToken, tok = src.token → tok.Poll mem1 = .ok (st, mem1)) ∧
    (∃ mem1, src.RequestStop0 mem = .ok mem1 ∧
      ∀ tok : arrow.StopToken, tok = src.token →
        tok.Poll mem1 = .ok (arrow.Status.Cancelled "Operation cancelled", mem1)) := by
  constructor
  · obtain ⟨h1, h2⟩ := arrow.StopToken.Poll_after src mem impl st hsrc hreq hst
    exact ⟨_, h1, fun tok htok => htok ▸ h2⟩
  · obtain ⟨h1, h2⟩ := arrow.StopToken.Poll_after src mem impl
      (arrow.Status.Cancelled "Operation cancelled") hsrc hreq rfl
    exact ⟨_, h1, fun tok htok => htok ▸ h2⟩

theorem arrow.StopToken.Poll_returns_requested_witness :
    ((arrow.StopSource.ctor []).2[(arrow.StopSource.ctor []).1.impl_]? =
        some { requested_ := 0, cancel_error_ := arrow.Status.OK }) ∧
    (arrow.Status.Cancelled "disk full").ok = false ∧
    ((∃ mem1, (arrow.StopSource.ctor []).1.RequestStop (arrow.Status.Cancelled "disk full")
          (arrow.StopSource.ctor []).2 = .ok mem1 ∧
        ∀ tok : arrow.StopToken, tok = (arrow.StopSource.ctor []).1.token →
          tok.Poll mem1 = .ok (arrow.Status.Cancelled "disk full", mem1)) ∧
     (∃ mem1, (arrow.StopSource.ctor []).1.RequestStop0 (arrow.StopSource.ctor []).2 = .ok mem1 ∧
        ∀ tok : arrow.StopToken, tok = (arrow.StopSource.ctor []).1.token →
          tok.Poll mem1 = .ok (arrow.Status.Cancelled "Operation cancelled", mem1))) :=
  ⟨rfl, rfl, arrow.StopToken.Poll_returns_requested (arrow.StopSource.ctor []).1
    (arrow.StopSource.ctor []).2 { requested_ := 0, cancel_error_ := arrow.Status.OK }
    (arrow.Status.Cancelled "disk full") rfl rfl rfl⟩

/-- C9: in a stop state whose flag is not 0, a call `RequestStop(st)` writes nothing: it
returns with the state unchanged, flag and stored failure alike (for an OK `st` the
`DCHECK_NOT_OK` aborts before any write).  In particular, from a state whose flag is 0,
after `RequestStop(st1)` followed by `RequestStop(st2)` with failures `st1`, `st2`, `Poll`
returns `st1`. -/
theorem arrow.StopSourceImpl.RequestStop_no_effect (impl impl0 : arrow.StopSourceImpl)
    (st st1 st2 : arrow.Status) (hreq : impl.requested_ ≠ 0)
    (hreq0 : impl0.requested_ = 0) (hst1 : st1.ok = false) (hst2 : st2.ok = false) :
    (impl.RequestStop st = if st.ok then .error .abort else .ok impl) ∧
    (∃ impl1, impl0.RequestStop st1 = .ok impl1 ∧ impl1.RequestStop st2 = .ok impl1 ∧
      impl1.Poll = .ok (st1, impl1)) := by
  constructor
  · cases hok : st.ok
    · simp [arrow.StopSourceImpl.RequestStop_again impl st hreq hok]
    · simp [arrow.StopSourceImpl.RequestStop, hok]
  · refine ⟨_, arrow.StopSourceImpl.RequestStop_fresh impl0 st1 hreq0 hst1,
      arrow.StopSourceImpl.RequestStop_again _ st2 (by simp) hst2,
      arrow.StopSourceImpl.Poll_stored _ (by simp) hst1⟩

theorem arrow.StopSourceImpl.RequestStop_no_effect_witness :
    ((2 : Int) ≠ 0 ∧ (0 : Int) = 0 ∧ (arrow.Status.Cancelled "first").ok = false ∧
      (arrow.Status.Cancelled "second").ok = false) ∧
    (arrow.StopSourceImpl.RequestStop { requested_ := 2, cancel_error_ := arrow.Status.OK }
        (arrow.Status.Cancelled "late") =
      if (arrow.Status.Cancelled "late").ok then .error .abort
      else .ok { requested_ := 2, cancel_error_ := arrow.Status.OK }) ∧
    (∃ impl1, arrow.StopSourceImpl.RequestStop
        { requested_ := 0, cancel_error_ := arrow.Status.OK } (arrow.Status.Cancelled "first")
          = .ok impl1 ∧
      impl1.RequestStop (arrow.Status.Cancelled "second") = .ok impl1 ∧
      impl1.Poll = .ok (arrow.Status.Cancelled "first", impl1)) :=
  ⟨⟨by decide, rfl, rfl, rfl⟩,
    arrow.StopSourceImpl.RequestStop_no_effect
      { requested_ := 2, cancel_error_ := arrow.Status.OK }
      { requested_ := 0, cancel_error_ := arrow.Status.OK }
      (arrow.Status.Cancelled "late") (arrow.Status.Cancelled "first")
      (arrow.Status.Cancelled "second") (by decide) rfl rfl rfl⟩

namespace arrow

/-- One call other than `Reset` and a signal request with number 0 keeps a set flag set, and
keeps its value unless the call is `RequestStopFromSignal`. -/
theorem StopCall.apply_requested (impl impl1 : StopSourceImpl) (c : StopCall)
    (hreq : impl.requested_ ≠ 0) (hc : c ≠ .Reset) (hc0 : c ≠ .RequestStopFromSignal 0)
    (h : c.apply impl = .ok impl1) :
    impl1.requested_ ≠ 0 ∧
      ((∀ s, c ≠ .RequestStopFromSignal s) → impl1.requested_ = impl.requested_) := by
  cases c with
  | RequestStop st =>
    cases hok : st.ok
    · rw [StopCall.apply, StopSourceImpl.RequestStop_again impl st hreq hok] at h
      cases h
      exact ⟨hreq, fun _ => rfl⟩
    · simp [StopCall.apply, StopSourceImpl.RequestStop, hok] at h
  | RequestStopFromSignal s =>
    simp only [StopCall.apply, StopSourceImpl.RequestStopFromSignal, Except.ok.injEq] at h
    subst h
    refine ⟨?_, fun hs => absurd rfl (hs s)⟩
    intro hs
    apply hc0
    simp only [] at hs
    rw [hs]
  | Reset => exact absurd rfl hc
  | Poll =>
    simp only [StopCall.apply, StopSourceImpl.Poll, hreq, if_false] at h
    by_cases hok : impl.cancel_error_.ok = true
    · by_cases hge : impl.requested_ ≥ 0
      · simp [hok, hge] at h
        subst h
        exact ⟨hreq, fun _ => rfl⟩
      · simp [hok, hge] at h
    · simp [hok] at h
      subst h
      exact ⟨hreq, fun _ => rfl⟩
  | IsStopRequested =>
    simp only [StopCall.apply, Except.ok.injEq] at h
    subst h
    exact ⟨hreq, fun _ => rfl⟩

theorem StopCall.states_requested :
    ∀ (calls : List StopCall) (impl : StopSourceImpl), impl.requested_ ≠ 0 →
      (∀ c ∈ calls, c ≠ StopCall.Reset ∧ c ≠ StopCall.RequestStopFromSignal 0) →
      (∀ impl1 ∈ StopCall.states impl calls, impl1.requested_ ≠ 0) ∧
      ((∀ c ∈ calls, ∀ s, c ≠ StopCall.RequestStopFromSignal s) →
        ∀ impl1 ∈ StopCall.states impl calls, impl1.requested_ = impl.requested_)
  | [], impl, hreq, _ => by
    simp [StopCall.states, hreq]
  | c :: cs, impl, hreq, hcalls => by
    have hc := hcalls c (List.mem_cons_self c cs)
    have hcs : ∀ c1 ∈ cs, c1 ≠ StopCall.Reset ∧ c1 ≠ StopCall.RequestStopFromSignal 0 :=
      fun c1 h1 => hcalls c1 (List.mem_cons_of_mem c h1)
    cases happ : c.apply impl with
    | error e =>
      simp [StopCall.states, happ, hreq]
    | ok impl1 =>
      obtain ⟨hne, hsame⟩ := StopCall.apply_requested impl impl1 c hreq hc.1 hc.2 happ
      obtain ⟨ih1, ih2⟩ := StopCall.states_requested cs impl1 hne hcs
      simp only [StopCall.states, happ, List.mem_cons, forall_eq_or_imp]
      refine ⟨⟨hreq, ih1⟩, fun hns => ⟨trivial, ?_⟩⟩
      intro impl2 h2
      rw [ih2 hns.2 impl2 h2]
      exact hsame hns.1

end arrow

/-- C10, counterexample: on a new stop state the calls `RequestStop()` and then
`RequestStopFromSignal(2)` both return, and the flag goes from 0 to -1 and then, with no
`Reset` in between, from -1 to 2. -/
theorem arrow.StopCall.requested_overwritten :
    (arrow.StopCall.states { requested_ := 0, cancel_error_ := arrow.Status.OK }
      [arrow.StopCall.RequestStop (arrow.Status.Cancelled "Operation cancelled"),
       arrow.StopCall.RequestStopFromSignal 2]).map arrow.StopSourceImpl.requested_
      = [0, -1, 2] := by
  decide

/-- C10, amended: in every sequence of `RequestStop`, `RequestStopFromSignal(s)` with
`s ≠ 0`, `Poll` and `IsStopRequested` calls (no `Reset`) that starts with the flag set,
the flag is non-zero in every state the sequence goes through; and when the sequence has
no `RequestStopFromSignal` call the flag keeps its value throughout. -/
theorem arrow.StopCall.requested_stays_set (impl : arrow.StopSourceImpl)
    (calls : List arrow.StopCall) (hreq : impl.requested_ ≠ 0)
    (hcalls : ∀ c ∈ calls,
      c ≠ arrow.StopCall.Reset ∧ c ≠ arrow.StopCall.RequestStopFromSignal 0) :
    (∀ impl1 ∈ arrow.StopCall.states impl calls, impl1.requested_ ≠ 0) ∧
    ((∀ c ∈ calls, ∀ s, c ≠ arrow.StopCall.RequestStopFromSignal s) →
      ∀ impl1 ∈ arrow.StopCall.states impl calls, impl1.requested_ = impl.requested_) :=
  arrow.StopCall.states_requested calls impl hreq hcalls

theorem arrow.StopCall.requested_stays_set_witness :
    ((-1 : Int) ≠ 0) ∧
    (∀ c ∈ [arrow.StopCall.RequestStop (arrow.Status.Cancelled "again"),
        arrow.StopCall.RequestStopFromSignal 15, arrow.StopCall.Poll],
      c ≠ arrow.StopCall.Reset ∧ c ≠ arrow.StopCall.RequestStopFromSignal 0) ∧
    (∀ impl1 ∈ arrow.StopCall.states
        { requested_ := -1, cancel_error_ := arrow.Status.Cancelled "Operation cancelled" }
        [arrow.StopCall.RequestStop (arrow.Status.Cancelled "again"),
          arrow.StopCall.RequestStopFromSignal 15, arrow.StopCall.Poll],
      impl1.requested_ ≠ 0) :=
  ⟨by decide, by decide,
    (arrow.StopCall.requested_stays_set
      { requested_ := -1, cancel_error_ := arrow.Status.Cancelled "Operation cancelled" }
      [arrow.StopCall.RequestStop (arrow.Status.Cancelled "again"),
        arrow.StopCall.RequestStopFromSignal 15, arrow.StopCall.Poll]
      (by decide) (by decide)).1⟩

namespace thread_safe_queue

variable {T : Type}

/-- On an empty queue `wait_and_pop()` never returns. -/
theorem wait_and_pop_blocks (q : thread_safe_queue T) (hh : q.head = some q.tail) :
    wait_and_pop q = .error .blocks := by
  simp [wait_and_pop, wait_pop_head, wait_for_data, get_tail, hh]

/-- On an empty queue `wait_and_pop(value)` never returns. -/
theorem wait_and_pop_out_blocks (q : thread_safe_queue T) (value : T)
    (hh : q.head = some q.tail) : wait_and_pop_out value q = .error .blocks := by
  simp [wait_and_pop_out, wait_and_pop_ref, wait_pop_head_ref, wait_for_data, get_tail, hh]

theorem try_pop_out_empty (q : thread_safe_queue T) (value : T) (hh : q.head = some q.tail) :
    try_pop_out value q = .ok (none, q) := by
  simp [try_pop_out, try_pop_ref_empty q value hh]

theorem Rep.head_eq_tail {q : thread_safe_queue T} (hr : Rep q []) : q.head = some q.tail := by
  obtain ⟨h, hh, hc⟩ := hr
  simp only [Chain] at hc
  rw [hh, hc.1]

theorem Call.pushed_cons (c : Call T) (cs : List (Call T)) :
    Call.pushed (c :: cs) = Call.pushed [c] ++ Call.pushed cs := by
  cases c <;> simp [Call.pushed]

/-- One call that returns on a queue holding `vs`: what it delivers followed by what the
queue then holds is `vs` followed by what it pushed. -/
theorem Call.apply_rep {q q1 : thread_safe_queue T} {vs : List T} (hr : Rep q vs)
    (c : Call T) (r : Option T) (h : c.apply q = .ok (r, q1)) :
    ∃ vs1, Rep q1 vs1 ∧ vs ++ Call.pushed [c] = r.toList ++ vs1 := by
  cases c with
  | push v =>
    obtain ⟨q2, hq2, hr2⟩ := Rep.after_push hr v
    simp only [Call.apply, hq2, Except.ok.injEq, Prod.mk.injEq] at h
    obtain ⟨h1, h2⟩ := h
    subst h1 h2
    exact ⟨vs ++ [v], hr2, by simp [Call.pushed]⟩
  | try_pop =>
    cases vs with
    | nil =>
      rw [Call.apply, try_pop_empty q hr.head_eq_tail] at h
      simp only [Except.ok.injEq, Prod.mk.injEq] at h
      obtain ⟨h1, h2⟩ := h
      subst h1 h2
      exact ⟨[], hr, by simp [Call.pushed]⟩
    | cons v vs =>
      obtain ⟨q2, hr2, _, ht, _⟩ := Rep.after_pop hr
      rw [Call.apply, ht] at h
      simp only [Except.ok.injEq, Prod.mk.injEq] at h
      obtain ⟨h1, h2⟩ := h
      subst h1 h2
      exact ⟨vs, hr2, by simp [Call.pushed]⟩
  | try_pop_ref value =>
    cases vs with
    | nil =>
      rw [Call.apply, try_pop_out_empty q value hr.head_eq_tail] at h
      simp only [Except.ok.injEq, Prod.mk.injEq] at h
      obtain ⟨h1, h2⟩ := h
      subst h1 h2
      exact ⟨[], hr, by simp [Call.pushed]⟩
    | cons v vs =>
      obtain ⟨q2, hr2, _, _, hv⟩ := Rep.after_pop hr
      rw [Call.apply, (hv value).2] at h
      simp only [Except.ok.injEq, Prod.mk.injEq] at h
      obtain ⟨h1, h2⟩ := h
      subst h1 h2
      exact ⟨vs, hr2, by simp [Call.pushed]⟩
  | wait_and_pop =>
    cases vs with
    | nil =>
      rw [Call.apply, wait_and_pop_blocks q hr.head_eq_tail] at h
      cases h
    | cons v vs =>
      obtain ⟨q2, hr2, hw, _, _⟩ := Rep.after_pop hr
      rw [Call.apply, hw] at h
      simp only [Except.ok.injEq, Prod.mk.injEq] at h
      obtain ⟨h1, h2⟩ := h
      subst h1 h2
      exact ⟨vs, hr2, by simp [Call.pushed]⟩
  | wait_and_pop_ref value =>
    cases vs with
    | nil =>
      rw [Call.apply, wait_and_pop_out_blocks q value hr.head_eq_tail] at h
      cases h
    | cons v vs =>
      obtain ⟨q2, hr2, _, _, hv⟩ := Rep.after_pop hr
      rw [Call.apply, (hv value).1] at h
      simp only [Except.ok.injEq, Prod.mk.injEq] at h
      obtain ⟨h1, h2⟩ := h
      subst h1 h2
      exact ⟨vs, hr2, by simp [Call.pushed]⟩

/-- A `push` and a `try_pop()` return on every queue that satisfies the invariant. -/
theorem Call.apply_returns {q : thread_safe_queue T} {vs : List T} (hr : Rep q vs)
    (c : Call T) (hc : c.push_or_try_pop = true) : ∃ r q1, c.apply q = .ok (r, q1) := by
  cases c with
  | push v =>
    obtain ⟨q2, hq2, _⟩ := Rep.after_push hr v
    exact ⟨none, q2, by simp [Call.apply, hq2]⟩
  | try_pop =>
    cases vs with
    | nil => exact ⟨none, q, try_pop_empty q hr.head_eq_tail⟩
    | cons v vs =>
      obtain ⟨q2, _, _, ht, _⟩ := Rep.after_pop hr
      exact ⟨some v, q2, ht⟩
  | try_pop_ref value => simp [Call.push_or_try_pop] at hc
  | wait_and_pop => simp [Call.push_or_try_pop] at hc
  | wait_and_pop_ref value => simp [Call.push_or_try_pop] at hc

/-- A sequence of calls that all return, started on a queue holding `vs`: the values
delivered followed by the values still held are `vs` followed by the values pushed. -/
theorem Call.run_rep :
    ∀ (calls : List (Call T)) {q q1 : thread_safe_queue T} {vs del : List T}, Rep q vs →
      Call.run calls q = .ok (del, q1) →
      ∃ vs1, Rep q1 vs1 ∧ vs ++ Call.pushed calls = del ++ vs1
  | [], q, q1, vs, del, hr, h => by
    simp only [Call.run, Except.ok.injEq, Prod.mk.injEq] at h
    obtain ⟨h1, h2⟩ := h
    subst h1 h2
    exact ⟨vs, hr, by simp [Call.pushed]⟩
  | c :: cs, q, q1, vs, del, hr, h => by
    simp only [Call.run] at h
    cases hc : c.apply q with
    | error e => simp [hc] at h
    | ok p =>
      obtain ⟨r, q2⟩ := p
      obtain ⟨vs2, hr2, heq2⟩ := Call.apply_rep hr c r hc
      cases hrun : Call.run cs q2 with
      | error e => simp [hc, hrun] at h
      | ok p2 =>
        obtain ⟨rs, q3⟩ := p2
        simp only [hc, hrun, Except.ok.injEq, Prod.mk.injEq] at h
        obtain ⟨h1, h2⟩ := h
        subst h1 h2
        obtain ⟨vs3, hr3, heq3⟩ := Call.run_rep cs hr2 hrun
        refine ⟨vs3, hr3, ?_⟩
        rw [Call.pushed_cons, ← List.append_assoc, heq2, List.append_assoc, heq3]
        simp

/-- A sequence of `push` and `try_pop()` calls returns as a whole. -/
theorem Call.run_returns :
    ∀ (calls : List (Call T)) {q : thread_safe_queue T} {vs : List T}, Rep q vs →
      (∀ c ∈ calls, c.push_or_try_pop = true) → ∃ del q1, Call.run calls q = .ok (del, q1)
  | [], q, _, _, _ => ⟨[], q, rfl⟩
  | c :: cs, q, vs, hr, hall => by
    obtain ⟨r, q2, hc⟩ := Call.apply_returns hr c (hall c (List.mem_cons_self c cs))
    obtain ⟨vs2, hr2, _⟩ := Call.apply_rep hr c r hc
    obtain ⟨rs, q3, hrun⟩ := Call.run_returns cs hr2
      (fun c1 h1 => hall c1 (List.mem_cons_of_mem c h1))
    exact ⟨r.toList ++ rs, q3, by simp [Call.run, hc, hrun]⟩

end thread_safe_queue

/-- C13: on an empty queue (`empty()` is true) `try_pop()` returns a null pointer and
`try_pop(value)` returns false with `value` as it was; both leave the queue state unchanged,
so the queue is still empty. -/
theorem thread_safe_queue.try_pop_on_empty {T : Type} (q : thread_safe_queue T)
    (hempty : q.empty = true) :
    q.try_pop = .ok (none, q) ∧
    (∀ value : T, q.try_pop_ref value = .ok (false, value, q)) ∧
    q.empty = true := by
  have hh : q.head = some q.tail := by
    simpa [thread_safe_queue.empty, thread_safe_queue.get_tail] using hempty
  exact ⟨thread_safe_queue.try_pop_empty q hh,
    fun value => thread_safe_queue.try_pop_ref_empty q value hh, hempty⟩

theorem thread_safe_queue.try_pop_on_empty_witness :
    (thread_safe_queue.ctor : thread_safe_queue Nat).empty = true ∧
    (thread_safe_queue.ctor : thread_safe_queue Nat).try_pop
      = .ok (none, thread_safe_queue.ctor) ∧
    (∀ value : Nat, (thread_safe_queue.ctor : thread_safe_queue Nat).try_pop_ref value
      = .ok (false, value, thread_safe_queue.ctor)) ∧
    (thread_safe_queue.ctor : thread_safe_queue Nat).empty = true :=
  ⟨rfl, thread_safe_queue.try_pop_on_empty thread_safe_queue.ctor rfl⟩

/-- C14: every finite sequence of `push` and `try_pop()` calls made one after another on a
newly constructed queue returns, and the values its successful pops return, in the order
they were returned, are a prefix of the pushed values in push order. -/
theorem thread_safe_queue.pops_prefix_of_pushes {T : Type}
    (calls : List (thread_safe_queue.Call T))
    (hcalls : ∀ c ∈ calls, c.push_or_try_pop = true) :
    ∃ del q, thread_safe_queue.Call.run calls thread_safe_queue.ctor = .ok (del, q) ∧
      del <+: thread_safe_queue.Call.pushed calls := by
  obtain ⟨del, q, hrun⟩ :=
    thread_safe_queue.Call.run_returns calls thread_safe_queue.Rep.of_ctor hcalls
  obtain ⟨vs, _, heq⟩ := thread_safe_queue.Call.run_rep calls thread_safe_queue.Rep.of_ctor hrun
  exact ⟨del, q, hrun, ⟨vs, by simpa using heq.symm⟩⟩

theorem thread_safe_queue.pops_prefix_of_pushes_witness :
    (∀ c ∈ [thread_safe_queue.Call.push 1, .try_pop, .try_pop, .push 2, .push 3, .try_pop],
      c.push_or_try_pop = true) ∧
    ∃ del q, thread_safe_queue.Call.run
        [thread_safe_queue.Call.push 1, .try_pop, .try_pop, .push 2, .push 3, .try_pop]
        thread_safe_queue.ctor = .ok (del, q) ∧
      del <+: thread_safe_queue.Call.pushed
        [thread_safe_queue.Call.push 1, .try_pop, .try_pop, .push 2, .push 3, .try_pop] :=
  ⟨by decide, thread_safe_queue.pops_prefix_of_pushes
    [thread_safe_queue.Call.push 1, .try_pop, .try_pop, .push 2, .push 3, .try_pop]
    (by decide)⟩

/-- C16: in the state `q` reached from a newly constructed queue by a sequence of pushes and
pops (of any of the four kinds) that all returned, `empty()` is true exactly when `head` and
`tail` are the same node, and exactly when the number of pushes equals the number of
successful pops; a new queue is empty, and right after any further push `empty()` is
false. -/
theorem thread_safe_queue.empty_iff_balanced {T : Type}
    (calls : List (thread_safe_queue.Call T)) (del : List T) (q : thread_safe_queue T)
    (hrun : thread_safe_queue.Call.run calls thread_safe_queue.ctor = .ok (del, q)) :
    (q.empty = true ↔ q.head = some q.tail) ∧
    (q.empty = true ↔ (thread_safe_queue.Call.pushed calls).length = del.length) ∧
    (thread_safe_queue.ctor : thread_safe_queue T).empty = true ∧
    (∀ v : T, ∃ q1, q.push v = .ok q1 ∧ q1.empty = false) := by
  obtain ⟨vs, hr, heq⟩ := thread_safe_queue.Call.run_rep calls thread_safe_queue.Rep.of_ctor hrun
  simp only [List.nil_append] at heq
  refine ⟨by simp [thread_safe_queue.empty, thread_safe_queue.get_tail], ?_, rfl, ?_⟩
  · rw [hr.empty_iff, heq, List.length_append]
    constructor
    · intro h
      simp [h]
    · intro h
      exact List.length_eq_zero.mp (by omega)
  · intro v
    obtain ⟨q1, hq1, hr1⟩ := thread_safe_queue.Rep.after_push hr v
    refine ⟨q1, hq1, ?_⟩
    cases hq : q1.empty
    · rfl
    · have := hr1.empty_iff.mp hq
      simp at this

theorem thread_safe_queue.empty_iff_balanced_witness :
    (thread_safe_queue.Call.run
        [thread_safe_queue.Call.push 7, .wait_and_pop, .push 8] thread_safe_queue.ctor
      = .ok ([7], { heap := [none, some { data := some 8, next := some 2 },
                      some { data := none, next := none }],
                    head := some 1, tail := 2 })) ∧
    ((thread_safe_queue.empty ({ heap := [none, some { data := some 8, next := some 2 },
            some { data := none, next := none }], head := some 1, tail := 2 } :
          thread_safe_queue Nat) = true ↔
      (thread_safe_queue.Call.pushed
        [thread_safe_queue.Call.push 7, .wait_and_pop, .push 8]).length = [7].length)) :=
  ⟨rfl, (thread_safe_queue.empty_iff_balanced
    [thread_safe_queue.Call.push 7, .wait_and_pop, .push 8] [7]
    { heap := [none, some { data := some 8, next := some 2 },
        some { data := none, next := none }], head := some 1, tail := 2 } rfl).2.1⟩

namespace lock_free_stack

variable {T : Type}

/-- A stack of `vs` nodes needs at least `|vs|` cells below a bound on its top pointer. -/
theorem Stk.length_le {heap : List (Option (node T))} :
    ∀ {vs : List T} {cp : counted_node_ptr} (b : Nat), Stk heap cp vs →
      (∀ p, cp.ptr = some p → p < b) → vs.length ≤ b
  | [], _, _, _, _ => by simp
  | _ :: vs, cp, b, hs, hb => by
    simp only [Stk] at hs
    obtain ⟨p, nxt, hcp, _, hlt, hrest⟩ := hs
    have hpb : p < b := hb p (by rw [hcp])
    have := Stk.length_le p hrest hlt
    simp only [List.length_cons]
    omega

/-- Following `next` from the top reads off the values of the stack. -/
theorem Stk.values_eq {heap : List (Option (node T))} :
    ∀ {vs : List T} {cp : counted_node_ptr} (fuel : Nat), Stk heap cp vs →
      vs.length ≤ fuel → values fuel heap cp = vs
  | [], cp, fuel, hs, _ => by
    simp only [Stk] at hs
    cases fuel <;> simp [values, hs]
  | v :: vs, cp, fuel, hs, hfuel => by
    simp only [Stk] at hs
    obtain ⟨p, nxt, hcp, hp, _, hrest⟩ := hs
    cases fuel with
    | zero => simp at hfuel
    | succ fuel =>
      have ih := Stk.values_eq fuel hrest (by simpa using hfuel)
      simp [values, hcp, hp, ih]

theorem Holds.contents_eq {s : lock_free_stack T} {vs : List T} (hr : Holds s vs) :
    contents s = vs :=
  Stk.values_eq s.heap.length hr (Stk.length_le s.heap.length hr hr.top_lt)

theorem live_nodes_append (heap : List (Option (node T))) (n : node T) :
    live_nodes (heap ++ [some n]) = live_nodes heap + 1 := by
  induction heap with
  | nil => rfl
  | cons c heap ih => cases c <;> simp [live_nodes, ih]

/-- Deleting a live node lowers the number of live nodes by one. -/
theorem live_nodes_delete :
    ∀ (heap : List (Option (node T))) (p : Nat) (n : node T), heap[p]? = some (some n) →
      live_nodes (heap.set p none) + 1 = live_nodes heap
  | [], p, n, h => by simp at h
  | c :: heap, 0, n, h => by
    simp only [List.getElem?_cons_zero, Option.some.injEq] at h
    subst h
    simp [live_nodes]
  | c :: heap, p + 1, n, h => by
    simp only [List.getElem?_cons_succ] at h
    have ih := live_nodes_delete heap p n h
    cases c <;> simp [live_nodes] <;> omega

theorem live_nodes_zero :
    ∀ (heap : List (Option (node T))), live_nodes heap = 0 →
      heap = List.replicate heap.length none
  | [], _ => rfl
  | none :: heap, h => by
    simp only [live_nodes] at h
    simp only [List.length_cons, List.replicate_succ, List.cons.injEq, true_and]
    exact live_nodes_zero heap h
  | some _ :: heap, h => by simp [live_nodes] at h

theorem Call.pushed_step (c : Call T) (cs : List (Call T)) :
    Call.pushed (c :: cs) = Call.pushed [c] ++ Call.pushed cs := by
  cases c <;> simp [Call.pushed]

/-- One call on a stack holding `vs`, with fuel for one loop iteration: it returns; what it
delivers followed by what the stack then holds is what it pushed followed by `vs`; it
allocates one cell per push and keeps the live nodes equal in number to the values held. -/
theorem Call.apply_holds {s : lock_free_stack T} {vs : List T} (hr : Holds s vs)
    (hlive : live_nodes s.heap = vs.length) (fuel : Nat) (c : Call T) :
    ∃ r s1 vs1, c.apply (fuel + 1) s = .ok (r, s1) ∧ Holds s1 vs1 ∧
      r.toList ++ vs1 = Call.pushed [c] ++ vs ∧
      live_nodes s1.heap = vs1.length ∧
      s1.heap.length = s.heap.length + (Call.pushed [c]).length := by
  cases c with
  | push v =>
    obtain ⟨s1, hs1, hr1⟩ := Stk.push_top hr fuel v
    refine ⟨none, s1, v :: vs, by simp [Call.apply, hs1], hr1, by simp [Call.pushed], ?_, ?_⟩
    · have := push_returns fuel s v
      rw [hs1] at this
      cases this
      simp [live_nodes_append, hlive]
    · have := push_returns fuel s v
      rw [hs1] at this
      cases this
      simp [Call.pushed]
  | pop =>
    cases vs with
    | nil =>
      obtain ⟨s1, hs1, hnull, hheap⟩ := pop_null fuel s hr
      refine ⟨none, s1, [], by simp [Call.apply, hs1], hnull, by simp [Call.pushed], ?_, ?_⟩
      · rw [hheap]
        exact hlive
      · rw [hheap]
        simp [Call.pushed]
    | cons v vs =>
      have hr0 := hr
      simp only [Holds, Stk] at hr
      obtain ⟨p, nxt, hcp, hp, hlt, hrest⟩ := hr
      obtain ⟨s1, hs1, hr1⟩ := Stk.pop_top hr0 fuel
      have hpop := pop_returns fuel s p (some v) nxt hcp hp
      rw [hs1] at hpop
      simp only [Except.ok.injEq, Prod.mk.injEq, true_and] at hpop
      refine ⟨some v, s1, vs, by simp [Call.apply, hs1], hr1, by simp [Call.pushed], ?_, ?_⟩
      · have := live_nodes_delete s.heap p _ hp
        rw [hpop]
        simp only [List.length_cons] at hlive
        simp only []
        omega
      · rw [hpop]
        simp [Call.pushed]

/-- A sequence of calls on a stack holding `vs`, with fuel for one loop iteration per call:
it returns, and the accounting of `Call.apply_holds` adds up over the sequence. -/
theorem Call.run_holds (fuel : Nat) :
    ∀ (calls : List (Call T)) {s : lock_free_stack T} {vs : List T}, Holds s vs →
      live_nodes s.heap = vs.length →
      ∃ del s1 vs1, Call.run (fuel + 1) calls s = .ok (del, s1) ∧ Holds s1 vs1 ∧
        ((del ++ vs1 : List T) : Multiset T) = ((Call.pushed calls ++ vs : List T) : Multiset T) ∧
        live_nodes s1.heap = vs1.length ∧
        s1.heap.length = s.heap.length + (Call.pushed calls).length
  | [], s, vs, hr, hlive => ⟨[], s, vs, rfl, hr, by simp [Call.pushed], hlive, by simp [Call.pushed]⟩
  | c :: cs, s, vs, hr, hlive => by
    obtain ⟨r, s1, vs1, hc, hr1, heq1, hlive1, hlen1⟩ := Call.apply_holds hr hlive fuel c
    obtain ⟨rs, s2, vs2, hrun, hr2, heq2, hlive2, hlen2⟩ := Call.run_holds fuel cs hr1 hlive1
    refine ⟨r.toList ++ rs, s2, vs2, by simp [Call.run, hc, hrun], hr2, ?_, hlive2, ?_⟩
    · rw [Call.pushed_step]
      simp only [← Multiset.coe_add, List.append_assoc] at heq2 ⊢
      have h1 : ((r.toList : List T) : Multiset T) + (vs1 : Multiset T) =
          ((Call.pushed [c] : List T) : Multiset T) + (vs : Multiset T) := by
        rw [Multiset.coe_add, Multiset.coe_add, heq1]
      rw [heq2, add_left_comm, h1]
      abel
    · have hp := congrArg List.length (Call.pushed_step c cs)
      simp only [List.length_append] at hp
      omega

/-- The drain loop of the destructor on a stack holding `vs` returns once it has fuel for
`|vs| + 1` calls of `pop`; it leaves an empty stack, allocates nothing and deletes `|vs|`
nodes. -/
theorem dtor_drains :
    ∀ (vs : List T) {s : lock_free_stack T} (k : Nat), Holds s vs →
      ∃ s1, dtor (vs.length + 1 + k) s = .ok s1 ∧ Holds s1 [] ∧
        s1.heap.length = s.heap.length ∧ live_nodes s1.heap + vs.length = live_nodes s.heap
  | [], s, k, hr => by
    obtain ⟨s1, hs1, hnull, hheap⟩ := pop_null k s hr
    refine ⟨s1, ?_, hnull, by rw [hheap], by rw [hheap]; rfl⟩
    have hk : ([] : List T).length + 1 + k = k + 1 := by simp; omega
    rw [hk]
    simp [dtor, hs1]
  | v :: vs, s, k, hr => by
    have hr0 := hr
    simp only [Holds, Stk] at hr
    obtain ⟨p, nxt, hcp, hp, hlt, hrest⟩ := hr
    obtain ⟨s1, hs1, hr1⟩ := Stk.pop_top hr0 (vs.length + 1 + k)
    have hpop := pop_returns (vs.length + 1 + k) s p (some v) nxt hcp hp
    rw [hs1] at hpop
    simp only [Except.ok.injEq, Prod.mk.injEq, true_and] at hpop
    obtain ⟨s2, hs2, hr2, hlen2, hlive2⟩ := dtor_drains vs k hr1
    refine ⟨s2, ?_, hr2, ?_, ?_⟩
    · have hk : (v :: vs).length + 1 + k = (vs.length + 1 + k) + 1 := by
        simp only [List.length_cons]
        omega
      rw [hk]
      simp [dtor, hs1, hs2]
    · rw [hlen2, hpop]
      simp
    · have := live_nodes_delete s.heap p _ hp
      rw [hpop] at hlive2
      simp only [List.length_cons]
      simp only [] at hlive2
      omega

end lock_free_stack

/-- C15: every finite sequence of `push` and `pop` calls made one after another on a new
stack returns (fuel for one loop iteration per call is enough), and the multiset of the
values its successful pops returned together with the multiset of the values still on the
stack equals the multiset of the values pushed: none is delivered twice, none is lost. -/
theorem lock_free_stack.pops_and_contents_eq_pushes {T : Type} (fuel : Nat)
    (calls : List (lock_free_stack.Call T)) :
    ∃ del s, lock_free_stack.Call.run (fuel + 1) calls lock_free_stack.ctor = .ok (del, s) ∧
      ((del : List T) : Multiset T) + ((lock_free_stack.contents s : List T) : Multiset T)
        = ((lock_free_stack.Call.pushed calls : List T) : Multiset T) := by
  have h0 : lock_free_stack.Holds (lock_free_stack.ctor : lock_free_stack T) [] := rfl
  obtain ⟨del, s, vs, hrun, hr, heq, _, _⟩ := lock_free_stack.Call.run_holds fuel calls h0 rfl
  refine ⟨del, s, hrun, ?_⟩
  rw [hr.contents_eq, Multiset.coe_add, heq]
  simp

/-- C17: after every sequence of `push` and `pop` calls made one after another on a new
stack the number of live nodes equals the number of values on the stack; the destructor
run next terminates (fuel for one `pop` per allocated cell and one more is enough) with an
empty stack and no live node, every cell that a `push` allocated, one per push, being
deleted. -/
theorem lock_free_stack.dtor_frees_all {T : Type} (fuel : Nat)
    (calls : List (lock_free_stack.Call T)) :
    ∃ del s, lock_free_stack.Call.run (fuel + 1) calls lock_free_stack.ctor = .ok (del, s) ∧
      lock_free_stack.live_nodes s.heap = (lock_free_stack.contents s).length ∧
      ∃ s1, lock_free_stack.dtor (s.heap.length + 1 + fuel) s = .ok s1 ∧
        s1.head.ptr = none ∧ lock_free_stack.contents s1 = [] ∧
        lock_free_stack.live_nodes s1.heap = 0 ∧
        s1.heap = List.replicate (lock_free_stack.Call.pushed calls).length none := by
  have h0 : lock_free_stack.Holds (lock_free_stack.ctor : lock_free_stack T) [] := rfl
  obtain ⟨del, s, vs, hrun, hr, _, hlive, hlen⟩ := lock_free_stack.Call.run_holds fuel calls h0 rfl
  have hle : vs.length ≤ s.heap.length :=
    lock_free_stack.Stk.length_le s.heap.length hr hr.top_lt
  obtain ⟨s1, hs1, hr1, hlen1, hlive1⟩ :=
    lock_free_stack.dtor_drains vs (s.heap.length - vs.length + fuel) hr
  have hfuel : vs.length + 1 + (s.heap.length - vs.length + fuel) = s.heap.length + 1 + fuel := by
    omega
  rw [hfuel] at hs1
  have hzero : lock_free_stack.live_nodes s1.heap = 0 := by omega
  refine ⟨del, s, hrun, by rw [hr.contents_eq, hlive], s1, hs1, hr1, hr1.contents_eq, hzero, ?_⟩
  have := lock_free_stack.live_nodes_zero s1.heap hzero
  rw [hlen1, hlen] at this
  simpa [lock_free_stack.ctor] using this

namespace arrow

/-- A `RequestStop` with a failure returns on every live source and only writes the stop
state of that source. -/
theorem StopSource.RequestStop_returns (src : StopSource) (mem : StopHeap)
    (impl : StopSourceImpl) (st : Status) (hsrc : mem[src.impl_]? = some impl)
    (hst : st.ok = false) :
    ∃ impl1, src.RequestStop st mem = .ok (mem.set src.impl_ impl1) := by
  by_cases hreq : impl.requested_ = 0
  · exact ⟨{ requested_ := -1, cancel_error_ := st }, by
      simp [StopSource.RequestStop, hsrc, StopSourceImpl.RequestStop_fresh impl st hreq hst]⟩
  · exact ⟨impl, by
      simp [StopSource.RequestStop, hsrc, StopSourceImpl.RequestStop_again impl st hreq hst]⟩

/-- After `Reset` the stop state of the source is the initial one, whatever it was. -/
theorem StopSource.Reset_eq (src : StopSource) (mem : StopHeap) (impl : StopSourceImpl)
    (hsrc : mem[src.impl_]? = some impl) :
    src.Reset mem = .ok (mem.set src.impl_ { requested_ := 0, cancel_error_ := Status.OK }) := by
  simp [StopSource.Reset, hsrc, StopSourceImpl.Reset]

/-- On the initial stop state the token reports no stop and a poll writes nothing. -/
theorem StopToken.quiet_after_reset (src : StopSource) (mem : StopHeap)
    (hlt : src.impl_ < mem.length) :
    src.token.IsStopRequested
        (mem.set src.impl_ { requested_ := 0, cancel_error_ := Status.OK }) = .ok false ∧
    src.token.Poll (mem.set src.impl_ { requested_ := 0, cancel_error_ := Status.OK }) =
      .ok (Status.OK, mem.set src.impl_ { requested_ := 0, cancel_error_ := Status.OK }) := by
  constructor
  · simp [StopToken.IsStopRequested, StopSource.token, List.getElem?_set_self hlt,
      StopSourceImpl.IsStopRequested]
  · simp [StopToken.Poll, StopSource.token, List.getElem?_set_self hlt, StopSourceImpl.Poll]

/-- The invariant of a stop state: a zero flag comes with an OK stored failure, a negative
flag with a failure. -/
theorem StopCall.apply_invariant (impl impl1 : StopSourceImpl) (c : StopCall)
    (hc : c.admissible = true)
    (h0 : impl.requested_ = 0 → impl.cancel_error_.ok = true)
    (hneg : impl.requested_ < 0 → impl.cancel_error_.ok = false)
    (h : c.apply impl = .ok impl1) :
    (impl1.requested_ = 0 → impl1.cancel_error_.ok = true) ∧
    (impl1.requested_ < 0 → impl1.cancel_error_.ok = false) := by
  cases c with
  | RequestStop st =>
    have hst : st.ok = false := by simpa [StopCall.admissible] using hc
    by_cases hreq : impl.requested_ = 0
    · rw [StopCall.apply, StopSourceImpl.RequestStop_fresh impl st hreq hst] at h
      cases h
      exact ⟨fun h => by simp at h, fun _ => hst⟩
    · rw [StopCall.apply, StopSourceImpl.RequestStop_again impl st hreq hst] at h
      cases h
      exact ⟨h0, hneg⟩
  | RequestStopFromSignal s =>
    have hs : 0 < s := by simpa [StopCall.admissible] using hc
    simp only [StopCall.apply, StopSourceImpl.RequestStopFromSignal, Except.ok.injEq] at h
    subst h
    exact ⟨fun h => by simp only [] at h; omega, fun h => by simp only [] at h; omega⟩
  | Reset =>
    simp only [StopCall.apply, StopSourceImpl.Reset, Except.ok.injEq] at h
    subst h
    exact ⟨fun _ => rfl, fun h => by simp at h⟩
  | Poll =>
    simp only [StopCall.apply, StopSourceImpl.Poll] at h
    by_cases hreq : impl.requested_ = 0
    · simp [hreq] at h
      subst h
      exact ⟨h0, hneg⟩
    · by_cases hok : impl.cancel_error_.ok = true
      · by_cases hge : impl.requested_ ≥ 0
        · simp [hreq, hok, hge] at h
          subst h
          exact ⟨fun h => absurd h hreq, fun h => by simp only [] at h; omega⟩
        · simp [hreq, hok, hge] at h
      · simp [hreq, hok] at h
        subst h
        exact ⟨h0, hneg⟩
  | IsStopRequested =>
    simp only [StopCall.apply, Except.ok.injEq] at h
    subst h
    exact ⟨h0, hneg⟩

/-- Under the invariant an admissible call returns: no `DCHECK` fails. -/
theorem StopCall.apply_ok (impl : StopSourceImpl) (c : StopCall)
    (hc : c.admissible = true)
    (hneg : impl.requested_ < 0 → impl.cancel_error_.ok = false) :
    ∃ impl1, c.apply impl = .ok impl1 := by
  cases c with
  | RequestStop st =>
    have hst : st.ok = false := by simpa [StopCall.admissible] using hc
    by_cases hreq : impl.requested_ = 0
    · exact ⟨_, StopSourceImpl.RequestStop_fresh impl st hreq hst⟩
    · exact ⟨_, StopSourceImpl.RequestStop_again impl st hreq hst⟩
  | RequestStopFromSignal s => exact ⟨_, rfl⟩
  | Reset => exact ⟨_, rfl⟩
  | Poll =>
    by_cases hreq : impl.requested_ = 0
    · exact ⟨impl, by simp [StopCall.apply, StopSourceImpl.Poll, hreq]⟩
    · by_cases hok : impl.cancel_error_.ok = true
      · have hge : impl.requested_ ≥ 0 := by
          by_contra hlt
          have := hneg (by omega)
          rw [hok] at this
          cases this
        exact ⟨{ impl with cancel_error_ := Status.Cancelled "Operation cancelled" }, by
          simp [StopCall.apply, StopSourceImpl.Poll, hreq, hok, hge]⟩
      · exact ⟨impl, by simp [StopCall.apply, StopSourceImpl.Poll, hreq, hok]⟩
  | IsStopRequested => exact ⟨_, rfl⟩

theorem StopCall.states_invariant :
    ∀ (calls : List StopCall) (impl : StopSourceImpl),
      (∀ c ∈ calls, c.admissible = true) →
      (impl.requested_ = 0 → impl.cancel_error_.ok = true) →
      (impl.requested_ < 0 → impl.cancel_error_.ok = false) →
      StopCall.returns impl calls = true ∧
      ∀ impl1 ∈ StopCall.states impl calls,
        (impl1.requested_ = 0 → impl1.cancel_error_.ok = true) ∧
        (impl1.requested_ < 0 → impl1.cancel_error_.ok = false)
  | [], impl, _, h0, hneg => by
    simp [StopCall.returns, StopCall.states]
    exact ⟨h0, hneg⟩
  | c :: cs, impl, hall, h0, hneg => by
    have hc := hall c (List.mem_cons_self c cs)
    obtain ⟨impl1, happ⟩ := StopCall.apply_ok impl c hc hneg
    obtain ⟨h01, hneg1⟩ := StopCall.apply_invariant impl impl1 c hc h0 hneg happ
    obtain ⟨hret, hst⟩ := StopCall.states_invariant cs impl1
      (fun c1 h1 => hall c1 (List.mem_cons_of_mem c h1)) h01 hneg1
    simp only [StopCall.returns, StopCall.states, happ, List.mem_cons, forall_eq_or_imp]
    exact ⟨hret, ⟨h0, hneg⟩, hst⟩

end arrow

/-- C11: whatever the stop state of a source is, `Reset()` returns and leaves the flag 0
and the stored failure OK, so on the token of that source `IsStopRequested()` returns false
and `Poll()` returns OK; in particular `RequestStop()`, then `Reset()`, then `Poll()`
reports OK. -/
theorem arrow.StopSource.Reset_clears (src : arrow.StopSource) (mem : arrow.StopHeap)
    (impl : arrow.StopSourceImpl) (hsrc : mem[src.impl_]? = some impl) :
    (∃ mem1, src.Reset mem = .ok mem1 ∧
      mem1[src.impl_]? = some { requested_ := 0, cancel_error_ := arrow.Status.OK } ∧
      arrow.Status.OK.ok = true ∧
      ∀ tok : arrow.StopToken, tok = src.token →
        tok.IsStopRequested mem1 = .ok false ∧ tok.Poll mem1 = .ok (arrow.Status.OK, mem1)) ∧
    (∃ mem1 mem2, src.RequestStop0 mem = .ok mem1 ∧ src.Reset mem1 = .ok mem2 ∧
      src.token.Poll mem2 = .ok (arrow.Status.OK, mem2)) := by
  have hlt : src.impl_ < mem.length := heap_lt_of_get hsrc
  constructor
  · refine ⟨_, arrow.StopSource.Reset_eq src mem impl hsrc, List.getElem?_set_self hlt, rfl, ?_⟩
    intro tok htok
    subst htok
    exact arrow.StopToken.quiet_after_reset src mem hlt
  · obtain ⟨impl1, h1⟩ := arrow.StopSource.RequestStop_returns src mem impl
      (arrow.Status.Cancelled "Operation cancelled") hsrc rfl
    have hlt1 : src.impl_ < (mem.set src.impl_ impl1).length := by simpa using hlt
    exact ⟨_, _, h1,
      arrow.StopSource.Reset_eq src _ impl1 (List.getElem?_set_self hlt),
      (arrow.StopToken.quiet_after_reset src _ hlt1).2⟩

theorem arrow.StopSource.Reset_clears_witness :
    ([{ requested_ := 15, cancel_error_ := arrow.Status.Cancelled "Operation cancelled" }]
        : arrow.StopHeap)[(arrow.StopSource.mk 0).impl_]? =
      some { requested_ := 15, cancel_error_ := arrow.Status.Cancelled "Operation cancelled" } ∧
    ∃ mem1 mem2, (arrow.StopSource.mk 0).RequestStop0
        [{ requested_ := 15, cancel_error_ := arrow.Status.Cancelled "Operation cancelled" }]
        = .ok mem1 ∧
      (arrow.StopSource.mk 0).Reset mem1 = .ok mem2 ∧
      (arrow.StopSource.mk 0).token.Poll mem2 = .ok (arrow.Status.OK, mem2) :=
  ⟨rfl, (arrow.StopSource.Reset_clears (arrow.StopSource.mk 0)
    [{ requested_ := 15, cancel_error_ := arrow.Status.Cancelled "Operation cancelled" }]
    { requested_ := 15, cancel_error_ := arrow.Status.Cancelled "Operation cancelled" }
    rfl).2⟩

/-- C12: for every signal number `s > 0` and every prior stop state of a source,
`RequestStopFromSignal(s)` returns and afterwards `IsStopRequested()` returns true on the
token of that source. -/
theorem arrow.StopSource.signal_is_observable (src : arrow.StopSource) (mem : arrow.StopHeap)
    (impl : arrow.StopSourceImpl) (s : Int) (hsrc : mem[src.impl_]? = some impl)
    (hs : 0 < s) :
    ∃ mem1, src.RequestStopFromSignal s mem = .ok mem1 ∧
      ∀ tok : arrow.StopToken, tok = src.token → tok.IsStopRequested mem1 = .ok true := by
  have hlt : src.impl_ < mem.length := heap_lt_of_get hsrc
  refine ⟨mem.set src.impl_ (impl.RequestStopFromSignal s),
    by simp [arrow.StopSource.RequestStopFromSignal, hsrc], ?_⟩
  intro tok htok
  subst htok
  have hne : s ≠ 0 := by omega
  simp [arrow.StopToken.IsStopRequested, arrow.StopSource.token, List.getElem?_set_self hlt,
    arrow.StopSourceImpl.IsStopRequested, arrow.StopSourceImpl.RequestStopFromSignal, hne]

theorem arrow.StopSource.signal_is_observable_witness :
    (arrow.StopSource.ctor []).2[(arrow.StopSource.ctor []).1.impl_]? =
      some { requested_ := 0, cancel_error_ := arrow.Status.OK } ∧
    (0 : Int) < 2 ∧
    ∃ mem1, (arrow.StopSource.ctor []).1.RequestStopFromSignal 2 (arrow.StopSource.ctor []).2
        = .ok mem1 ∧
      ∀ tok : arrow.StopToken, tok = (arrow.StopSource.ctor []).1.token →
        tok.IsStopRequested mem1 = .ok true :=
  ⟨rfl, by decide, arrow.StopSource.signal_is_observable (arrow.StopSource.ctor []).1
    (arrow.StopSource.ctor []).2 { requested_ := 0, cancel_error_ := arrow.Status.OK } 2 rfl
    (by decide)⟩

/-- C20: every sequence of `RequestStop(st)` with `st` not OK, `RequestStopFromSignal(s)`
with `s > 0`, `Poll`, `IsStopRequested` and `Reset` calls on the stop state of a newly
constructed source returns as a whole, and in every state it goes through a zero flag
comes with an OK stored failure. -/
theorem arrow.StopCall.zero_flag_has_ok_failure (calls : List arrow.StopCall)
    (hcalls : ∀ c ∈ calls, c.admissible = true) :
    arrow.StopCall.returns { requested_ := 0, cancel_error_ := arrow.Status.OK } calls = true ∧
    ∀ impl ∈ arrow.StopCall.states { requested_ := 0, cancel_error_ := arrow.Status.OK } calls,
      impl.requested_ = 0 → impl.cancel_error_.ok = true := by
  obtain ⟨hret, hst⟩ := arrow.StopCall.states_invariant calls
    { requested_ := 0, cancel_error_ := arrow.Status.OK } hcalls (fun _ => rfl)
    (fun h => by simp at h)
  exact ⟨hret, fun impl himpl => (hst impl himpl).1⟩

theorem arrow.StopCall.zero_flag_has_ok_failure_witness :
    (∀ c ∈ [arrow.StopCall.RequestStopFromSignal 2, arrow.StopCall.Poll,
        arrow.StopCall.RequestStop (arrow.Status.Cancelled "late"), arrow.StopCall.Reset,
        arrow.StopCall.IsStopRequested], c.admissible = true) ∧
    arrow.StopCall.returns { requested_ := 0, cancel_error_ := arrow.Status.OK }
      [arrow.StopCall.RequestStopFromSignal 2, arrow.StopCall.Poll,
        arrow.StopCall.RequestStop (arrow.Status.Cancelled "late"), arrow.StopCall.Reset,
        arrow.StopCall.IsStopRequested] = true ∧
    ∀ impl ∈ arrow.StopCall.states { requested_ := 0, cancel_error_ := arrow.Status.OK }
      [arrow.StopCall.RequestStopFromSignal 2, arrow.StopCall.Poll,
        arrow.StopCall.RequestStop (arrow.Status.Cancelled "late"), arrow.StopCall.Reset,
        arrow.StopCall.IsStopRequested],
      impl.requested_ = 0 → impl.cancel_error_.ok = true :=
  ⟨by decide, arrow.StopCall.zero_flag_has_ok_failure
    [arrow.StopCall.RequestStopFromSignal 2, arrow.StopCall.Poll,
      arrow.StopCall.RequestStop (arrow.Status.Cancelled "late"), arrow.StopCall.Reset,
      arrow.StopCall.IsStopRequested] (by decide)⟩

/-- C18: a default-constructed `FnOnce` is empty (`operator bool` is false) and one
constructed from a callable is non-empty; invoking the latter with argument `a` returns
what the callable returns on `a`, destroys the callable and leaves the `FnOnce` empty, and
invoking the emptied `FnOnce` again calls nothing (it dereferences a null `impl_`): the
held callable is invoked at most once. -/
theorem arrow.internal.FnOnce.invoked_at_most_once {W A R X : Type}
    (fn : arrow.internal.FnOnce.Impl W A R X) (a a1 : A) (w : W) :
    (arrow.internal.FnOnce.ctor : arrow.internal.FnOnce W A R X).toBool = false ∧
    (arrow.internal.FnOnce.of fn).toBool = true ∧
    (∃ emptied, (arrow.internal.FnOnce.of fn).call a w =
        some ((fn.invoke a w).1, emptied, fn.dtor (fn.invoke a w).2) ∧
      emptied.toBool = false ∧
      emptied.call a1 (fn.dtor (fn.invoke a w).2) = none ∧
      emptied.dtor (fn.dtor (fn.invoke a w).2) = fn.dtor (fn.invoke a w).2) :=
  ⟨rfl, rfl, arrow.internal.FnOnce.ctor, rfl, rfl, rfl, rfl⟩

namespace arrow

open std internal

variable {F CB R E A : Type}

/-- Once `please_shutdown` is set no operation of the pool clears it. -/
theorem ThreadPool.Call.after_keeps_shutdown :
    ∀ (calls : List (ThreadPool.Call F CB)) (pool : ThreadPool.State F CB),
      pool.please_shutdown = true → (ThreadPool.Call.after calls pool).please_shutdown = true
  | [], _, h => h
  | c :: cs, pool, h => by
    apply ThreadPool.Call.after_keeps_shutdown cs
    cases c <;> simp [ThreadPool.Call.apply, ThreadPool.SpawnReal, ThreadPool.Shutdown, h]

theorem ThreadPool.Shutdown_sets_flag (pool : ThreadPool.State F CB) (wait : Bool) :
    (ThreadPool.Shutdown pool wait).1 = Status.OK ∧
    (ThreadPool.Shutdown pool wait).2.please_shutdown = true := by
  cases h : pool.please_shutdown <;> simp [ThreadPool.Shutdown, h]

theorem ThreadPool.SpawnReal_rejects (pool : ThreadPool.State F CB)
    (h : pool.please_shutdown = true) (hints : TaskHints) (task : F) (tok : StopToken)
    (cb : CB) : ThreadPool.SpawnReal pool hints task tok cb = (ThreadPool.ShutdownStatus, pool) := by
  simp [ThreadPool.SpawnReal, h]

end arrow

/-- C19: `Shutdown` returns OK, and in every pool state reached afterwards, through any
further submissions and shutdowns, `SpawnReal` returns a status of kind Shutdown (not OK)
and leaves the pool state, its task queue included, as it was; hence every `Spawn` through
the executor interface returns that status and every `Submit` raises from the submission
call. -/
theorem arrow.ThreadPool.rejects_after_Shutdown {F CB R E A : Type}
    (pool : arrow.ThreadPool.State F CB) (wait : Bool)
    (calls : List (arrow.ThreadPool.Call F CB))
    (erase : arrow.internal.FnOnce (arrow.ThreadPool.State F CB × std.SharedState R E)
      Unit Unit (std.Exception E) → F)
    (erase_cb : arrow.StopCallback (arrow.ThreadPool.State F CB × std.SharedState R E) E → CB)
    (hints : arrow.TaskHints)
    (task : arrow.internal.FnOnce (arrow.ThreadPool.State F CB × std.SharedState R E)
      Unit Unit (std.Exception E))
    (tok : arrow.StopToken)
    (cb : arrow.StopCallback (arrow.ThreadPool.State F CB × std.SharedState R E) E)
    (state : std.SharedState R E) (is_void_v : Bool) (func : A → Except E R) (args : A) :
    (arrow.ThreadPool.Shutdown pool wait).1 = arrow.Status.OK ∧
    (arrow.ThreadPool.SpawnReal
        (arrow.ThreadPool.Call.after calls (arrow.ThreadPool.Shutdown pool wait).2)
        hints (erase task) tok (erase_cb cb)).1.ok = false ∧
    (arrow.ThreadPool.SpawnReal
        (arrow.ThreadPool.Call.after calls (arrow.ThreadPool.Shutdown pool wait).2)
        hints (erase task) tok (erase_cb cb)).1.code = arrow.StatusCode.Shutdown ∧
    (arrow.ThreadPool.SpawnReal
        (arrow.ThreadPool.Call.after calls (arrow.ThreadPool.Shutdown pool wait).2)
        hints (erase task) tok (erase_cb cb)).2 =
      arrow.ThreadPool.Call.after calls (arrow.ThreadPool.Shutdown pool wait).2 ∧
    (arrow.ThreadPool.executor erase erase_cb).Spawn hints task tok cb
        (arrow.ThreadPool.Call.after calls (arrow.ThreadPool.Shutdown pool wait).2, state) =
      (arrow.ThreadPool.ShutdownStatus,
        (arrow.ThreadPool.Call.after calls (arrow.ThreadPool.Shutdown pool wait).2, state)) ∧
    (arrow.ThreadPool.executor erase erase_cb).Spawn_func task
        (arrow.ThreadPool.Call.after calls (arrow.ThreadPool.Shutdown pool wait).2, state) =
      (arrow.ThreadPool.ShutdownStatus,
        (arrow.ThreadPool.Call.after calls (arrow.ThreadPool.Shutdown pool wait).2, state)) ∧
    (arrow.ThreadPool.executor erase erase_cb).Submit is_void_v hints tok cb func args
        (arrow.ThreadPool.Call.after calls (arrow.ThreadPool.Shutdown pool wait).2) =
      (.error (std.Exception.runtime_error "Failed to submit task"),
        (arrow.ThreadPool.Call.after calls (arrow.ThreadPool.Shutdown pool wait).2,
          std.SharedState.not_ready)) := by
  obtain ⟨hst, hflag⟩ := arrow.ThreadPool.Shutdown_sets_flag pool wait
  have hlater := arrow.ThreadPool.Call.after_keeps_shutdown calls _ hflag
  have hrej := fun (h : arrow.TaskHints) (t : F) (k : arrow.StopToken) (c : CB) =>
    arrow.ThreadPool.SpawnReal_rejects
      (arrow.ThreadPool.Call.after calls (arrow.ThreadPool.Shutdown pool wait).2) hlater h t k c
  refine ⟨hst, ?_, ?_, ?_, ?_, ?_, ?_⟩
  · rw [hrej]
    rfl
  · rw [hrej]
    rfl
  · rw [hrej]
  · simp only [arrow.Executor.Spawn, arrow.ThreadPool.executor, hrej]
  · simp only [arrow.Executor.Spawn_func, arrow.ThreadPool.executor, hrej]
  · simp only [arrow.Executor.Submit, arrow.ThreadPool.executor, hrej]
    rfl

namespace lock_free_stack

variable {T : Type}

/-- One iteration of the loop of `pop` is `increase_head_count` followed by the loop body
`pop_attempt`. -/
theorem pop_loop_unfold (fuel : Nat) (s : lock_free_stack T) (old_head : counted_node_ptr) :
    pop_loop (fuel + 1) s old_head =
      match increase_head_count (fuel + 1) s old_head with
      | .error e => .error e
      | .ok (old_head1, s1) =>
        match pop_attempt s1 old_head1 with
        | .error e => .error e
        | .ok (.returned res s2) => .ok (res, s2)
        | .ok (.again old_head2 s2) => pop_loop fuel s2 old_head2 := by
  rw [pop_loop]
  cases hinc : increase_head_count (fuel + 1) s old_head with
  | error e => rfl
  | ok p =>
    obtain ⟨old_head1, s1⟩ := p
    simp only []
    cases hptr : old_head1.ptr with
    | none => simp [pop_attempt, hptr]
    | some ptr =>
      cases hd : deref s1.heap ptr with
      | error e => simp [pop_attempt, hptr, hd]
      | ok n =>
        by_cases hcas : s1.head = old_head1
        · by_cases hdel : n.internal_count = int32 (-int32 (old_head1.external_count - 2))
          · simp [pop_attempt, hptr, hd, compare_exchange_strong, hcas, Release.apply,
              fetch_add, hdel]
          · simp [pop_attempt, hptr, hd, compare_exchange_strong, hcas, Release.apply,
              fetch_add, hdel]
        · by_cases hdel : n.internal_count = 1
          · simp [pop_attempt, hptr, hd, compare_exchange_strong, hcas, Release.apply,
              fetch_add, hdel]
          · simp [pop_attempt, hptr, hd, compare_exchange_strong, hcas, Release.apply,
              fetch_add, hdel, sub_eq_add_neg]

end lock_free_stack

namespace thread_safe_queue

variable {T : Type}

/-- A chain of `|vs|` values spans at least that many addresses. -/
theorem Chain.span {heap : List (Option (node T))} {t : Nat} :
    ∀ {vs : List T} {h : Nat}, Chain heap t h vs → h + vs.length ≤ t
  | [], h, hc => by
    simp only [Chain] at hc
    simp [hc.1]
  | _ :: vs, h, hc => by
    simp only [Chain] at hc
    obtain ⟨h1, _, hlt, hrest⟩ := hc
    have := Chain.span hrest
    simp only [List.length_cons]
    omega

/-- The walk along a chain arrives at the tail once it has fuel for every node. -/
theorem Chain.reaches {heap : List (Option (node T))} {t : Nat} :
    ∀ {vs : List T} {h : Nat} (fuel : Nat), Chain heap t h vs → vs.length < fuel →
      reaches_tail fuel heap t (some h) = true
  | [], h, fuel, hc, hfuel => by
    simp only [Chain] at hc
    obtain ⟨k, hk⟩ : ∃ k, fuel = k + 1 := ⟨fuel - 1, by simp at hfuel; omega⟩
    subst hk
    simp [reaches_tail, hc.1, hc.2]
  | v :: vs, h, fuel, hc, hfuel => by
    simp only [Chain] at hc
    obtain ⟨h1, hh, hlt, hrest⟩ := hc
    have hle := Chain.le hrest
    have hne : h ≠ t := by omega
    obtain ⟨k, hk⟩ : ∃ k, fuel = k + 1 := ⟨fuel - 1, by simp at hfuel; omega⟩
    subst hk
    have ih := Chain.reaches k hrest (by simpa using hfuel)
    simp [reaches_tail, hh, hne, ih]

theorem Rep.well_formed_eq {q : thread_safe_queue T} {vs : List T} (hr : Rep q vs) :
    well_formed q = true := by
  obtain ⟨h, hh, hc⟩ := hr
  have hspan := Chain.span hc
  have hlt : q.tail < q.heap.length := heap_lt_of_get (Chain.tail_dummy hc)
  rw [well_formed, hh]
  exact Chain.reaches q.heap.length hc (by omega)

/-- On a non-empty queue `try_pop_head(value)` returns the old head after writing its data
through the reference. -/
theorem try_pop_head_ref_eq (q : thread_safe_queue T) (h : Nat) (n : node T) (d value : T)
    (hh : q.head = some h) (hn : q.heap[h]? = some (some n)) (hd : n.data = some d)
    (hne : h ≠ q.tail) :
    try_pop_head_ref q value = .ok (some h, d,
      { heap := q.heap.set h (some { n with next := none }), head := n.next, tail := q.tail }) := by
  simp only [try_pop_head_ref, get_tail, hh, Option.some.injEq, hne, if_false,
    pop_head_eq q h n hh hn, deref, hn, hd]

/-- On a non-empty queue `wait_pop_head(value)` returns the old head after writing its data
through the reference. -/
theorem wait_pop_head_ref_eq (q : thread_safe_queue T) (h : Nat) (n : node T) (d value : T)
    (hh : q.head = some h) (hn : q.heap[h]? = some (some n)) (hd : n.data = some d)
    (hne : h ≠ q.tail) :
    wait_pop_head_ref q value = .ok (some h, d,
      { heap := q.heap.set h (some { n with next := none }), head := n.next, tail := q.tail }) := by
  simp only [wait_pop_head_ref, wait_for_data, get_tail, hh, ne_eq, Option.some.injEq, hne,
    not_false_eq_true, if_true, pop_head_eq q h n hh hn, deref, hn, hd]

/-- The shape of a queue that satisfies the invariant: `tail` is the dummy node, `head` is a
live node that is the dummy exactly when it is `tail`, and otherwise carries the value that
every pop operation returns while `head` moves on to its `next`. -/
theorem Rep.shape {q : thread_safe_queue T} {vs : List T} (hr : Rep q vs) :
    q.heap[q.tail]? = some (some { data := none, next := none }) ∧
    ∃ h n, q.head = some h ∧ q.heap[h]? = some (some n) ∧ (n.data = none ↔ h = q.tail) ∧
      (h ≠ q.tail → ∃ v q1 h1, n.data = some v ∧ n.next = some h1 ∧ q1.head = n.next ∧
        q.wait_and_pop = .ok (some v, q1) ∧ q.try_pop = .ok (some v, q1) ∧
        (∀ value : T, wait_and_pop_out value q = .ok (some v, q1) ∧
          try_pop_out value q = .ok (some v, q1)) ∧
        q.pop_head = .ok (some h,
          { heap := q.heap.set h (some { n with next := none }), head := n.next,
            tail := q.tail }) ∧
        (∀ value : T,
          try_pop_head_ref q value = .ok (some h, v,
            { heap := q.heap.set h (some { n with next := none }), head := n.next,
              tail := q.tail }) ∧
          wait_pop_head_ref q value = .ok (some h, v,
            { heap := q.heap.set h (some { n with next := none }), head := n.next,
              tail := q.tail }))) := by
  obtain ⟨h, hh, hc⟩ := hr
  refine ⟨Chain.tail_dummy hc, ?_⟩
  cases vs with
  | nil =>
    simp only [Chain] at hc
    refine ⟨h, { data := none, next := none }, hh, ?_, ?_, ?_⟩
    · rw [hc.1]
      exact hc.2
    · simp [hc.1]
    · intro hne
      exact absurd hc.1 hne
  | cons v vs =>
    simp only [Chain] at hc
    obtain ⟨h1, hn, hlt, hrest⟩ := hc
    have hle := Chain.le hrest
    have hne : h ≠ q.tail := by omega
    refine ⟨h, { data := some v, next := some h1 }, hh, hn, ?_, ?_⟩
    · simp [hne]
    · intro _
      refine ⟨v, { heap := q.heap.set h none, head := some h1, tail := q.tail }, h1, rfl, rfl,
        rfl, wait_and_pop_eq q h _ hh hn hne, try_pop_eq q h _ hh hn hne, ?_,
        pop_head_eq q h _ hh hn, ?_⟩
      · intro value
        constructor
        · simp only [wait_and_pop_out, wait_and_pop_ref_eq q h _ v value hh hn rfl hne]
        · simp only [try_pop_out, try_pop_ref_eq q h _ v value hh hn rfl hne]
      · intro value
        exact ⟨try_pop_head_ref_eq q h _ v value hh hn rfl hne,
          wait_pop_head_ref_eq q h _ v value hh hn rfl hne⟩

end thread_safe_queue

/-- C22, counterexample: after `push(7)` on a new queue `head` points at the node that
carries 7, the node its `next` leads to is the dummy node, and `wait_and_pop()` returns the
7 stored on the head node itself. -/
theorem thread_safe_queue.head_node_carries_data :
    thread_safe_queue.push (thread_safe_queue.ctor : thread_safe_queue Nat) 7 =
      .ok { heap := [some { data := some 7, next := some 1 },
                     some { data := none, next := none }],
            head := some 0, tail := 1 } ∧
    thread_safe_queue.wait_and_pop
      ({ heap := [some { data := some 7, next := some 1 }, some { data := none, next := none }],
         head := some 0, tail := 1 } : thread_safe_queue Nat) =
      .ok (some 7, { heap := [none, some { data := none, next := none }],
                     head := some 1, tail := 1 }) :=
  ⟨rfl, rfl⟩

/-- C22, amended: in every state reached from a newly constructed queue by pushes and pops
the node that `tail` points at is a dummy node carrying no data; `head` points at that
dummy node exactly when the queue is empty and otherwise at a node carrying data; and the
value a pop returns is the data stored on the node that `head` points at, `head` moving on
to that node's `next`. -/
theorem thread_safe_queue.dummy_is_at_tail {T : Type}
    (calls : List (thread_safe_queue.Call T)) (del : List T) (q : thread_safe_queue T)
    (hrun : thread_safe_queue.Call.run calls thread_safe_queue.ctor = .ok (del, q)) :
    q.heap[q.tail]? = some (some { data := none, next := none }) ∧
    ∃ h n, q.head = some h ∧ q.heap[h]? = some (some n) ∧ (n.data = none ↔ h = q.tail) ∧
      (h ≠ q.tail → ∃ v q1, n.data = some v ∧ q1.head = n.next ∧
        q.wait_and_pop = .ok (some v, q1) ∧ q.try_pop = .ok (some v, q1) ∧
        ∀ value : T, thread_safe_queue.wait_and_pop_out value q = .ok (some v, q1) ∧
          thread_safe_queue.try_pop_out value q = .ok (some v, q1)) := by
  obtain ⟨vs, hr, _⟩ := thread_safe_queue.Call.run_rep calls thread_safe_queue.Rep.of_ctor hrun
  obtain ⟨htail, h, n, hh, hn, hiff, hpop⟩ := hr.shape
  refine ⟨htail, h, n, hh, hn, hiff, fun hne => ?_⟩
  obtain ⟨v, q1, _, hv, _, hq1, hw, ht, hout, _⟩ := hpop hne
  exact ⟨v, q1, hv, hq1, hw, ht, hout⟩

theorem thread_safe_queue.dummy_is_at_tail_witness :
    (thread_safe_queue.Call.run [thread_safe_queue.Call.push 7] thread_safe_queue.ctor
      = .ok ([], { heap := [some { data := some 7, next := some 1 },
                     some { data := none, next := none }],
                   head := some 0, tail := 1 })) ∧
    ([some ({ data := some 7, next := some 1 } : thread_safe_queue.node Nat),
        some { data := none, next := none }][1]? =
      some (some { data := none, next := none })) :=
  ⟨rfl, (thread_safe_queue.dummy_is_at_tail [thread_safe_queue.Call.push 7] []
    { heap := [some { data := some 7, next := some 1 }, some { data := none, next := none }],
      head := some 0, tail := 1 } rfl).1⟩

/-- C25: in every state reached from a newly constructed queue by pushes and pops,
following `next` from `head` arrives at `tail`, the tail node has null data and null next
and every node before it has non-null data and non-null next; `head` is not null; and
whenever `head ≠ tail`, `pop_head`, `try_pop_head(value)` and `wait_pop_head(value)` return
without touching a null pointer and leave `head` non-null. -/
theorem thread_safe_queue.list_well_formed {T : Type}
    (calls : List (thread_safe_queue.Call T)) (del : List T) (q : thread_safe_queue T)
    (hrun : thread_safe_queue.Call.run calls thread_safe_queue.ctor = .ok (del, q)) :
    q.well_formed = true ∧ q.head ≠ none ∧
    (q.head ≠ some q.tail →
      (∃ old q1 h1, q.pop_head = .ok (some old, q1) ∧ q1.head = some h1) ∧
      ∀ value : T,
        (∃ old d q1 h1, thread_safe_queue.try_pop_head_ref q value = .ok (some old, d, q1) ∧
          q1.head = some h1) ∧
        (∃ old d q1 h1, thread_safe_queue.wait_pop_head_ref q value = .ok (some old, d, q1) ∧
          q1.head = some h1)) := by
  obtain ⟨vs, hr, _⟩ := thread_safe_queue.Call.run_rep calls thread_safe_queue.Rep.of_ctor hrun
  obtain ⟨_, h, n, hh, _, _, hpop⟩ := hr.shape
  refine ⟨hr.well_formed_eq, by simp [hh], fun hne => ?_⟩
  have hne1 : h ≠ q.tail := fun heq => hne (by rw [hh, heq])
  obtain ⟨v, q1, h1, _, hnext, _, _, _, _, hph, href⟩ := hpop hne1
  refine ⟨⟨h, _, h1, hph, hnext⟩, fun value => ⟨⟨h, v, _, h1, (href value).1, hnext⟩,
    ⟨h, v, _, h1, (href value).2, hnext⟩⟩⟩

theorem thread_safe_queue.list_well_formed_witness :
    (thread_safe_queue.Call.run
        [thread_safe_queue.Call.push 1, .push 2, .try_pop, .push 3] thread_safe_queue.ctor
      = .ok ([1], { heap := [none, some { data := some 2, next := some 2 },
                      some { data := some 3, next := some 3 },
                      some { data := none, next := none }],
                    head := some 1, tail := 3 })) ∧
    thread_safe_queue.well_formed
      ({ heap := [none, some { data := some 2, next := some 2 },
          some { data := some 3, next := some 3 }, some { data := none, next := none }],
         head := some 1, tail := 3 } : thread_safe_queue Nat) = true :=
  ⟨rfl, (thread_safe_queue.list_well_formed
    [thread_safe_queue.Call.push 1, .push 2, .try_pop, .push 3] [1]
    { heap := [none, some { data := some 2, next := some 2 },
        some { data := some 3, next := some 3 }, some { data := none, next := none }],
      head := some 1, tail := 3 } rfl).1⟩

namespace arrow

/-- In every stop state `Poll` returns an OK status exactly when the flag is 0. -/
theorem StopSourceImpl.Poll_ok_iff (impl : StopSourceImpl) :
    (∃ st impl1, impl.Poll = .ok (st, impl1) ∧ st.ok = true) ↔
      impl.IsStopRequested = false := by
  by_cases hreq : impl.requested_ = 0
  · simp only [StopSourceImpl.IsStopRequested, hreq, ne_eq, not_true_eq_false, decide_False,
      iff_true]
    exact ⟨Status.OK, impl, by simp [StopSourceImpl.Poll, hreq], rfl⟩
  · simp only [StopSourceImpl.IsStopRequested, hreq, ne_eq, not_false_eq_true, decide_True,
      Bool.true_eq_false, iff_false]
    rintro ⟨st, impl1, hpoll, hok⟩
    by_cases herr : impl.cancel_error_.ok = true
    · by_cases hge : impl.requested_ ≥ 0
      · simp [StopSourceImpl.Poll, hreq, herr, hge] at hpoll
        rw [← hpoll.1] at hok
        cases hok
      · simp [StopSourceImpl.Poll, hreq, herr, hge] at hpoll
    · simp [StopSourceImpl.Poll, hreq, herr] at hpoll
      rw [← hpoll.1] at hok
      exact herr hok

/-- What `Poll` returns through a token that points at a live stop state. -/
theorem StopToken.Poll_live (p : Nat) (mem : StopHeap) (impl : StopSourceImpl)
    (hp : mem[p]? = some impl) :
    (∃ st mem1, StopToken.Poll { impl_ := some p } mem = .ok (st, mem1) ∧ st.ok = true) ↔
      ∃ st impl1, impl.Poll = .ok (st, impl1) ∧ st.ok = true := by
  cases hpoll : impl.Poll with
  | error e => simp [StopToken.Poll, hp, hpoll]
  | ok r =>
    obtain ⟨st, impl1⟩ := r
    simp [StopToken.Poll, hp, hpoll]

end arrow

/-- C23: in every stop state `Poll()` returns an OK status exactly when
`IsStopRequested()` returns false; the same holds through every token on every heap of stop
states, a token without stop state included; and such a token, default-constructed or
`Unstoppable()`, reports false and OK whatever the stop states of the sources are. -/
theorem arrow.StopToken.Poll_ok_iff_not_requested (impl : arrow.StopSourceImpl)
    (tok : arrow.StopToken) (mem : arrow.StopHeap) :
    ((∃ st impl1, impl.Poll = .ok (st, impl1) ∧ st.ok = true) ↔
      impl.IsStopRequested = false) ∧
    ((∃ st mem1, tok.Poll mem = .ok (st, mem1) ∧ st.ok = true) ↔
      tok.IsStopRequested mem = .ok false) ∧
    ({ impl_ := none } : arrow.StopToken) = arrow.StopToken.Unstoppable ∧
    arrow.StopToken.Unstoppable.IsStopRequested mem = .ok false ∧
    arrow.StopToken.Unstoppable.Poll mem = .ok (arrow.Status.OK, mem) := by
  refine ⟨arrow.StopSourceImpl.Poll_ok_iff impl, ?_, rfl, rfl, rfl⟩
  obtain ⟨ptr⟩ := tok
  cases ptr with
  | none =>
    simp only [arrow.StopToken.IsStopRequested, iff_true]
    exact ⟨arrow.Status.OK, mem, rfl, rfl⟩
  | some p =>
    cases hp : mem[p]? with
    | none => simp [arrow.StopToken.Poll, arrow.StopToken.IsStopRequested, hp]
    | some impl0 =>
      rw [arrow.StopToken.Poll_live p mem impl0 hp, arrow.StopSourceImpl.Poll_ok_iff impl0]
      simp [arrow.StopToken.IsStopRequested, hp]

/-- C24: every sequence of `RequestStop(st)` with `st` not OK, `RequestStopFromSignal(s)`
with `s > 0`, `Reset`, `Poll` (and `IsStopRequested`) calls on the stop state of a newly
constructed source returns as a whole, so `DCHECK_GE(signum, 0)` never fails; in every
state it goes through, a non-zero flag with an OK stored failure is a positive signal
number, the flag -1 comes with a stored failure that is not OK, and a `Poll` made there
returns. -/
theorem arrow.StopCall.Poll_never_aborts (calls : List arrow.StopCall)
    (hcalls : ∀ c ∈ calls, c.admissible = true) :
    arrow.StopCall.returns { requested_ := 0, cancel_error_ := arrow.Status.OK } calls = true ∧
    ∀ impl ∈ arrow.StopCall.states { requested_ := 0, cancel_error_ := arrow.Status.OK } calls,
      (impl.requested_ ≠ 0 → impl.cancel_error_.ok = true → 0 < impl.requested_) ∧
      (impl.requested_ = -1 → impl.cancel_error_.ok = false) ∧
      (∃ r, impl.Poll = .ok r) := by
  obtain ⟨hret, hst⟩ := arrow.StopCall.states_invariant calls
    { requested_ := 0, cancel_error_ := arrow.Status.OK } hcalls (fun _ => rfl)
    (fun h => by simp at h)
  refine ⟨hret, fun impl himpl => ?_⟩
  obtain ⟨_, hneg⟩ := hst impl himpl
  refine ⟨?_, fun h => hneg (by omega), ?_⟩
  · intro hne hok
    by_contra hle
    have := hneg (by omega)
    rw [hok] at this
    cases this
  · obtain ⟨impl1, happ⟩ := arrow.StopCall.apply_ok impl arrow.StopCall.Poll rfl hneg
    cases hpoll : impl.Poll with
    | error e => simp [arrow.StopCall.apply, hpoll] at happ
    | ok r => exact ⟨r, rfl⟩

theorem arrow.StopCall.Poll_never_aborts_witness :
    (∀ c ∈ [arrow.StopCall.RequestStopFromSignal 15, arrow.StopCall.Poll,
        arrow.StopCall.Reset, arrow.StopCall.RequestStop (arrow.Status.Cancelled "stop"),
        arrow.StopCall.Poll], c.admissible = true) ∧
    arrow.StopCall.returns { requested_ := 0, cancel_error_ := arrow.Status.OK }
      [arrow.StopCall.RequestStopFromSignal 15, arrow.StopCall.Poll,
        arrow.StopCall.Reset, arrow.StopCall.RequestStop (arrow.Status.Cancelled "stop"),
        arrow.StopCall.Poll] = true :=
  ⟨by decide, (arrow.StopCall.Poll_never_aborts
    [arrow.StopCall.RequestStopFromSignal 15, arrow.StopCall.Poll,
      arrow.StopCall.Reset, arrow.StopCall.RequestStop (arrow.Status.Cancelled "stop"),
      arrow.StopCall.Poll] (by decide)).1⟩

